import Mathlib

/-!
MKSServoCAN: a verification development.

A shallow embedding of `src/MKSServoCAN.cpp` (checksum, frame encoder / command
catalog, response decoder) and of the transport interface it talks to.

Conventions of the embedding

* `uint8_t`, `uint16_t`, `uint32_t`, `size_t` values are natural numbers; a cast
  `uintN_t(e)` is `e % 2^N`, and arithmetic that can wrap is reduced explicitly.
* `int32_t`, `int64_t` values are integers; a bit pattern `p` of width `w` is read as
  a signed value by `toSigned w p`.
* `bool` is `Bool`; `uint8_t(b)` is `boolByte b`.
* `float` values are rationals; every `float` operation is the exact operation followed by
  rounding to binary32 (`f32`).
* An access outside an array (`memcpy` past a buffer, an index past a table) is undefined
  behaviour and is modelled as `none`.
* `Serial` output is kept as the list of calls made, each with its format string and
  arguments, rather than as rendered text.
-/

namespace MKSServoCAN

/-! ## Transport interface -/

/-- Modelled from the spec: the declaration of `CanFrame` (in `ICanBus.h`) is not part of
the sources; the spec describes a frame as an identifier (`u32`), a length (`u8`) and
8 data bytes of which only the first `length` are meaningful. -/
structure CanFrame where
  id : Nat
  dlc : Nat
  data : List Nat
  deriving DecidableEq, Repr

/-- A frame as the C++ type admits it: a 32-bit identifier, an 8-bit length, and exactly
eight data bytes. -/
def CanFrame.WellTyped (f : CanFrame) : Prop :=
  f.id < 2 ^ 32 ∧ f.dlc < 256 ∧ f.data.length = 8 ∧ ∀ b ∈ f.data, b < 256

instance (f : CanFrame) : Decidable f.WellTyped := by
  unfold CanFrame.WellTyped; infer_instance

/-- Modelled from the spec: the abstract class `ICanBus` (in `ICanBus.h`) is not part of the
sources; the spec gives it `send(frame, timeoutMs) -> bool` and
`receive(frame, timeoutMs) -> bool`.  The state records every call made through the
interface: `txLog` holds the arguments of each `send`, `rxLog` the timeout of each
`receive`; `accept` is the answer the transport gives to a `send`, and `rxQueue` holds
the frames it has pending for delivery. -/
structure ICanBus where
  accept : CanFrame → Nat → Bool
  txLog : List (CanFrame × Nat)
  rxQueue : List CanFrame
  rxLog : List Nat

/-- The call `_bus->send(tx, timeoutMs)`: the transport's answer and its next state. -/
def ICanBus.send (bus : ICanBus) (tx : CanFrame) (timeoutMs : Nat) : Bool × ICanBus :=
  (bus.accept tx timeoutMs, { bus with txLog := bus.txLog ++ [(tx, timeoutMs)] })

/-- The call `memcpy(dst, src, n)` on byte arrays: the first `n` bytes of `dst` are replaced by
the first `n` bytes of `src`; writing past the end of `dst` or reading past the end of `src`
is undefined behaviour (`none`). -/
def memcpy (dst src : List Nat) (n : Nat) : Option (List Nat) :=
  if n ≤ dst.length ∧ n ≤ src.length then some (src.take n ++ dst.drop n) else none

/-- The call `_bus->receive(rx, timeoutMs)` on a transport with a finite queue of pending
frames: with a frame pending it copies identifier, length and the first `dlc` data bytes
into `rx` (as `McpCan::receive` does) and answers `true`; with none pending it leaves `rx`
alone and answers `false`. -/
def ICanBus.receive (bus : ICanBus) (rx : CanFrame) (timeoutMs : Nat) :
    Option (Bool × CanFrame × ICanBus) :=
  match bus.rxQueue with
  | [] => some (false, rx, { bus with rxLog := bus.rxLog ++ [timeoutMs] })
  | f :: rest =>
    match memcpy rx.data f.data f.dlc with
    | none => none
    | some d =>
      some (true, { id := f.id, dlc := f.dlc, data := d },
        { bus with rxQueue := rest, rxLog := bus.rxLog ++ [timeoutMs] })

/-! ## Checksum -/

/-- The loop of `computeCRC`: `for (i = 0; i < n; ++i) sum += data[i];` on a `uint32_t`
accumulator. -/
def computeCRC.loop (data : List Nat) (n : Nat) (sum : Nat) : Nat :=
  (List.range n).foldl (fun sum i => (sum + data.getD i 0) % 2 ^ 32) sum

/-- `static uint8_t computeCRC(uint32_t id, const uint8_t* data, size_t n)`. -/
def computeCRC (id : Nat) (data : List Nat) (n : Nat) : Nat :=
  let sum := id
  let sum := computeCRC.loop data n sum
  (sum &&& 0xFF) % 256

/-! ## Frame encoder -/

/-- `static void sendFrame(uint32_t id, const std::vector<uint8_t>& payload)`.
The function returns nothing; its effect is the call it makes on the transport.  `none`
stands for the undefined behaviour of a `memcpy` past the 8-byte `frame.data`. -/
def sendFrame (bus : ICanBus) (id : Nat) (payload : List Nat) : Option ICanBus :=
  let buf := payload
  let buf := buf ++ [computeCRC id buf buf.length]
  let frame : CanFrame := { id := id, dlc := buf.length % 256, data := List.replicate 8 0 }
  match memcpy frame.data buf buf.length with
  | none => none
  | some d =>
    let frame := { frame with data := d }
    some (bus.send frame 100).2

/-! ## Command catalog -/

/-- The cast `uint8_t(e)` of an unsigned expression. -/
def u8 (e : Nat) : Nat := e % 256

/-- The cast `uint8_t(e)` of a signed expression (two's complement truncation). -/
def u8s (e : Int) : Nat := (e % 256).toNat

/-- The cast `uint8_t(b)` of a `bool`. -/
def boolByte (b : Bool) : Nat := if b then 1 else 0

-- read status commands
def readEncoderCarry (bus : ICanBus) (id : Nat) := sendFrame bus id [0x30]
def readEncoderAdd (bus : ICanBus) (id : Nat) := sendFrame bus id [0x31]
def readSpeed (bus : ICanBus) (id : Nat) := sendFrame bus id [0x32]
def readPulses (bus : ICanBus) (id : Nat) := sendFrame bus id [0x33]
def readIOstatus (bus : ICanBus) (id : Nat) := sendFrame bus id [0x34]
def readRawEncoder (bus : ICanBus) (id : Nat) := sendFrame bus id [0x35]
def readAngleError (bus : ICanBus) (id : Nat) := sendFrame bus id [0x39]
def readEnablePin (bus : ICanBus) (id : Nat) := sendFrame bus id [0x3A]
def readZeroStatus (bus : ICanBus) (id : Nat) := sendFrame bus id [0x3B]
def releaseProtection (bus : ICanBus) (id : Nat) := sendFrame bus id [0x3D]
def readProtectState (bus : ICanBus) (id : Nat) := sendFrame bus id [0x3E]

-- system parameter commands
def calibrate (bus : ICanBus) (id : Nat) := sendFrame bus id [0x80, 0x00]
def setWorkMode (bus : ICanBus) (id m : Nat) := sendFrame bus id [0x82, m]
def setCurrent (bus : ICanBus) (id ma : Nat) :=
  sendFrame bus id [0x83, u8 (ma >>> 8), u8 ma]
def setMicrostep (bus : ICanBus) (id ms : Nat) := sendFrame bus id [0x84, ms]
def setEnActive (bus : ICanBus) (id en : Nat) := sendFrame bus id [0x85, en]
def setDirection (bus : ICanBus) (id dir : Nat) := sendFrame bus id [0x86, dir]
def setAutoSleep (bus : ICanBus) (id : Nat) (e : Bool) := sendFrame bus id [0x87, boolByte e]
def setProtect (bus : ICanBus) (id : Nat) (e : Bool) := sendFrame bus id [0x88, boolByte e]
def setInterpolator (bus : ICanBus) (id : Nat) (e : Bool) :=
  sendFrame bus id [0x89, boolByte e]
def setHoldCurrent (bus : ICanBus) (id pct : Nat) := sendFrame bus id [0x9B, pct]
def setCanRate (bus : ICanBus) (id r : Nat) := sendFrame bus id [0x8A, r]
def setCanId (bus : ICanBus) (id nid : Nat) :=
  sendFrame bus id [0x8B, u8 (nid >>> 8), u8 nid]
def setCanResponse (bus : ICanBus) (id : Nat) (rsp act : Bool) :=
  sendFrame bus id [0x8C, boolByte rsp, boolByte act]
def setGroupId (bus : ICanBus) (id gid : Nat) :=
  sendFrame bus id [0x8D, u8 (gid >>> 8), u8 gid]
def setKeylock (bus : ICanBus) (id : Nat) (l : Bool) := sendFrame bus id [0x8F, boolByte l]

def setHomeParams (bus : ICanBus) (id t d s : Nat) (el : Bool) (m : Nat) :=
  sendFrame bus id [0x90, t, d, u8 (s >>> 8), u8 s, boolByte el, m]
def goHome (bus : ICanBus) (id : Nat) := sendFrame bus id [0x91]
def setZeroPoint (bus : ICanBus) (id : Nat) := sendFrame bus id [0x92]
def setNoLimitReturn (bus : ICanBus) (id r ma : Nat) :=
  sendFrame bus id
    [0x94, u8 (r >>> 24), u8 (r >>> 16), u8 (r >>> 8), u8 r, u8 (ma >>> 8), u8 ma]
def setLimitRemap (bus : ICanBus) (id : Nat) (e : Bool) := sendFrame bus id [0x9E, boolByte e]

def setZeroMode (bus : ICanBus) (id m : Nat) (en : Bool) (sp dir : Nat) :=
  sendFrame bus id [0x9A, m, boolByte en, sp, dir]

def restoreDefaults (bus : ICanBus) (id : Nat) := sendFrame bus id [0x3F]
def restart (bus : ICanBus) (id : Nat) := sendFrame bus id [0x41]

def setEnTrigger (bus : ICanBus) (id : Nat) (et pp : Bool) (tim err : Nat) :=
  sendFrame bus id
    [0x9D, u8 ((if pp then 0x02 else 0) ||| (if et then 0x01 else 0)),
      u8 (tim >>> 8), u8 tim, u8 (err >>> 8), u8 err]

def readSystemParam (bus : ICanBus) (id c : Nat) := sendFrame bus id [0x00, c]

def queryStatus (bus : ICanBus) (id : Nat) := sendFrame bus id [0xF1]
def enableMotor (bus : ICanBus) (id : Nat) (en : Bool) := sendFrame bus id [0xF3, boolByte en]

def emergencyStop (bus : ICanBus) (id : Nat) := sendFrame bus id [0xF7]

def speedMode (bus : ICanBus) (id s a : Nat) (ccw : Bool) :=
  sendFrame bus id
    [0xF6, u8 ((if ccw then 0x80 else 0) ||| ((s >>> 8) &&& 0x0F)), u8 (s &&& 0xFF), a]
def speedModeStop (bus : ICanBus) (id : Nat) := sendFrame bus id [0xF6, 0, 0, 0]
def speedState (bus : ICanBus) (id : Nat) (save : Bool) :=
  sendFrame bus id [0xFF, u8 (if save then 0xC8 else 0xCA)]

def posRelative (bus : ICanBus) (id p s a : Nat) (ccw : Bool) :=
  sendFrame bus id
    [0xFD, u8 ((if ccw then 0x80 else 0) ||| ((s >>> 8) &&& 0x0F)), u8 (s &&& 0xFF), a,
      u8 (p >>> 16), u8 (p >>> 8), u8 p]
def posRelativeStop (bus : ICanBus) (id : Nat) := sendFrame bus id [0xFD, 0, 0, 0, 0, 0, 0]

def posAbsolute (bus : ICanBus) (id : Nat) (ax : Int) (s a : Nat) :=
  sendFrame bus id
    [0xFE, u8 (s >>> 8), u8 s, a, u8s (ax >>> 16), u8s (ax >>> 8), u8s ax]
def posAbsoluteStop (bus : ICanBus) (id : Nat) := sendFrame bus id [0xFE, 0, 0, 0, 0, 0, 0]

def posAxis (bus : ICanBus) (id : Nat) (r : Int) (s a : Nat) :=
  sendFrame bus id
    [0xF4, u8 (s >>> 8), u8 s, a, u8s (r >>> 16), u8s (r >>> 8), u8s r]
def posAxisStop (bus : ICanBus) (id : Nat) := sendFrame bus id [0xF4, 0, 0, 0, 0, 0, 0]

/-- The catalog as a closed set of calls: one constructor per function of the catalog,
carrying that function's arguments other than the identifier. -/
inductive Command where
  | readEncoderCarry | readEncoderAdd | readSpeed | readPulses | readIOstatus
  | readRawEncoder | readAngleError | readEnablePin | readZeroStatus
  | releaseProtection | readProtectState
  | calibrate
  | setWorkMode (m : Nat)
  | setCurrent (ma : Nat)
  | setMicrostep (ms : Nat)
  | setEnActive (en : Nat)
  | setDirection (dir : Nat)
  | setAutoSleep (e : Bool)
  | setProtect (e : Bool)
  | setInterpolator (e : Bool)
  | setHoldCurrent (pct : Nat)
  | setCanRate (r : Nat)
  | setCanId (nid : Nat)
  | setCanResponse (rsp act : Bool)
  | setGroupId (gid : Nat)
  | setKeylock (l : Bool)
  | setHomeParams (t d s : Nat) (el : Bool) (m : Nat)
  | goHome | setZeroPoint
  | setNoLimitReturn (r ma : Nat)
  | setLimitRemap (e : Bool)
  | setZeroMode (m : Nat) (en : Bool) (sp dir : Nat)
  | restoreDefaults | restart
  | setEnTrigger (et pp : Bool) (tim err : Nat)
  | readSystemParam (c : Nat)
  | queryStatus
  | enableMotor (en : Bool)
  | emergencyStop
  | speedMode (s a : Nat) (ccw : Bool)
  | speedModeStop
  | speedState (save : Bool)
  | posRelative (p s a : Nat) (ccw : Bool)
  | posRelativeStop
  | posAbsolute (ax : Int) (s a : Nat)
  | posAbsoluteStop
  | posAxis (r : Int) (s a : Nat)
  | posAxisStop
  deriving DecidableEq, Repr

/-- The arguments of a call are values of their C++ parameter types: `uint8_t` below `2^8`,
`uint16_t` below `2^16`, `uint32_t` below `2^32`, `int32_t` in `[-2^31, 2^31)`. -/
def Command.WellTyped : Command → Prop
  | .setWorkMode m => m < 256
  | .setCurrent ma => ma < 65536
  | .setMicrostep ms => ms < 256
  | .setEnActive en => en < 256
  | .setDirection dir => dir < 256
  | .setHoldCurrent pct => pct < 256
  | .setCanRate r => r < 256
  | .setCanId nid => nid < 65536
  | .setGroupId gid => gid < 65536
  | .setHomeParams t d s _ m => t < 256 ∧ d < 256 ∧ s < 65536 ∧ m < 256
  | .setNoLimitReturn r ma => r < 2 ^ 32 ∧ ma < 65536
  | .setZeroMode m _ sp dir => m < 256 ∧ sp < 256 ∧ dir < 256
  | .setEnTrigger _ _ tim err => tim < 65536 ∧ err < 65536
  | .readSystemParam c => c < 256
  | .speedMode s a _ => s < 65536 ∧ a < 256
  | .posRelative p s a _ => p < 2 ^ 32 ∧ s < 65536 ∧ a < 256
  | .posAbsolute ax s a => -2 ^ 31 ≤ ax ∧ ax < 2 ^ 31 ∧ s < 65536 ∧ a < 256
  | .posAxis r s a => -2 ^ 31 ≤ r ∧ r < 2 ^ 31 ∧ s < 65536 ∧ a < 256
  | _ => True

/-- Calling the catalog function a `Command` stands for, on transport `bus` with
identifier `id`. -/
def Command.run (bus : ICanBus) (id : Nat) : Command → Option ICanBus
  | .readEncoderCarry => MKSServoCAN.readEncoderCarry bus id
  | .readEncoderAdd => MKSServoCAN.readEncoderAdd bus id
  | .readSpeed => MKSServoCAN.readSpeed bus id
  | .readPulses => MKSServoCAN.readPulses bus id
  | .readIOstatus => MKSServoCAN.readIOstatus bus id
  | .readRawEncoder => MKSServoCAN.readRawEncoder bus id
  | .readAngleError => MKSServoCAN.readAngleError bus id
  | .readEnablePin => MKSServoCAN.readEnablePin bus id
  | .readZeroStatus => MKSServoCAN.readZeroStatus bus id
  | .releaseProtection => MKSServoCAN.releaseProtection bus id
  | .readProtectState => MKSServoCAN.readProtectState bus id
  | .calibrate => MKSServoCAN.calibrate bus id
  | .setWorkMode m => MKSServoCAN.setWorkMode bus id m
  | .setCurrent ma => MKSServoCAN.setCurrent bus id ma
  | .setMicrostep ms => MKSServoCAN.setMicrostep bus id ms
  | .setEnActive en => MKSServoCAN.setEnActive bus id en
  | .setDirection dir => MKSServoCAN.setDirection bus id dir
  | .setAutoSleep e => MKSServoCAN.setAutoSleep bus id e
  | .setProtect e => MKSServoCAN.setProtect bus id e
  | .setInterpolator e => MKSServoCAN.setInterpolator bus id e
  | .setHoldCurrent pct => MKSServoCAN.setHoldCurrent bus id pct
  | .setCanRate r => MKSServoCAN.setCanRate bus id r
  | .setCanId nid => MKSServoCAN.setCanId bus id nid
  | .setCanResponse rsp act => MKSServoCAN.setCanResponse bus id rsp act
  | .setGroupId gid => MKSServoCAN.setGroupId bus id gid
  | .setKeylock l => MKSServoCAN.setKeylock bus id l
  | .setHomeParams t d s el m => MKSServoCAN.setHomeParams bus id t d s el m
  | .goHome => MKSServoCAN.goHome bus id
  | .setZeroPoint => MKSServoCAN.setZeroPoint bus id
  | .setNoLimitReturn r ma => MKSServoCAN.setNoLimitReturn bus id r ma
  | .setLimitRemap e => MKSServoCAN.setLimitRemap bus id e
  | .setZeroMode m en sp dir => MKSServoCAN.setZeroMode bus id m en sp dir
  | .restoreDefaults => MKSServoCAN.restoreDefaults bus id
  | .restart => MKSServoCAN.restart bus id
  | .setEnTrigger et pp tim err => MKSServoCAN.setEnTrigger bus id et pp tim err
  | .readSystemParam c => MKSServoCAN.readSystemParam bus id c
  | .queryStatus => MKSServoCAN.queryStatus bus id
  | .enableMotor en => MKSServoCAN.enableMotor bus id en
  | .emergencyStop => MKSServoCAN.emergencyStop bus id
  | .speedMode s a ccw => MKSServoCAN.speedMode bus id s a ccw
  | .speedModeStop => MKSServoCAN.speedModeStop bus id
  | .speedState save => MKSServoCAN.speedState bus id save
  | .posRelative p s a ccw => MKSServoCAN.posRelative bus id p s a ccw
  | .posRelativeStop => MKSServoCAN.posRelativeStop bus id
  | .posAbsolute ax s a => MKSServoCAN.posAbsolute bus id ax s a
  | .posAbsoluteStop => MKSServoCAN.posAbsoluteStop bus id
  | .posAxis r s a => MKSServoCAN.posAxis bus id r s a
  | .posAxisStop => MKSServoCAN.posAxisStop bus id

/-- The layout of the direction/speed pair of bytes: in `b1` bit 7 is the direction, bits
6..4 are zero and bits 3..0 are bits 11..8 of the speed `s`; `b2` is `s mod 256`; so the 12-bit
speed reassembled from them is `s mod 4096`, and `s` itself when `s < 4096`. -/
def DirSpeedLayout (b1 b2 s : Nat) (ccw : Bool) : Prop :=
  b1.testBit 7 = ccw
  ∧ (∀ k, 4 ≤ k → k ≤ 6 → b1.testBit k = false)
  ∧ (∀ k, k ≤ 3 → b1.testBit k = s.testBit (8 + k))
  ∧ b1 < 256
  ∧ b2 = s % 256
  ∧ (b1 % 16) * 256 + b2 = s % 4096
  ∧ (s < 4096 → (b1 % 16) * 256 + b2 = s)

/-- The frames handed to the transport by a call that starts from `bus` and ends in `bus1`
are the entries `bus1.txLog` has beyond those of `bus.txLog`. -/
def framesSent (bus bus1 : ICanBus) : List (CanFrame × Nat) :=
  bus1.txLog.drop bus.txLog.length

/-- A transport with nothing sent, nothing pending, that accepts every frame. -/
def idleBus : ICanBus :=
  { accept := fun _ _ => true, txLog := [], rxQueue := [], rxLog := [] }

/-- The frame a payload of at most seven bytes is encoded into: the payload, the checksum
`(id + sum of the payload) mod 256`, and the zero bytes the frame was initialised with. -/
def encoded (id : Nat) (payload : List Nat) : CanFrame :=
  { id := id, dlc := payload.length + 1,
    data := payload ++ (id + payload.sum) % 256 :: List.replicate (7 - payload.length) 0 }

/-- Modelled from the spec: the receiving device is not part of the sources; the spec says it
"validates frames by recomputing this same sum", the sum of the identifier and of every data
byte before the last, modulo 256, compared with the last data byte. -/
def receiverAccepts (f : CanFrame) : Bool :=
  decide (0 < f.dlc ∧ f.dlc ≤ f.data.length ∧
    f.data.getD (f.dlc - 1) 0 = (f.id + (f.data.take (f.dlc - 1)).sum) % 256)

end MKSServoCAN

namespace MKSServoCAN

/-! ## Response decoder -/

/-- The value of a bit pattern `p` of width `w` read as a two's-complement signed integer:
the conversions `int16_t(e)`, `int32_t(e)` and the value of an `int64_t` with pattern `p`. -/
def toSigned (w : Nat) (p : Nat) : Int :=
  if p < 2 ^ (w - 1) then (p : Int) else (p : Int) - 2 ^ w

/-- Bitwise complement `~x` of a 64-bit pattern. -/
def not64 (x : Nat) : Nat := 2 ^ 64 - 1 - x

/-- Round a rational to the nearest integer, ties to the even one. -/
def roundEven (x : ℚ) : ℤ :=
  let f := ⌊x⌋
  let r := x - f
  if r < 1 / 2 then f else if 1 / 2 < r then f + 1 else if f % 2 = 0 then f else f + 1

/-- The `float` (IEEE 754 binary32) nearest to the rational `x`, as a rational: 24
significant bits, round to nearest, ties to even, gradual underflow below `2^-126`.  Every
`float` operation of the decoder is the exact operation followed by this rounding; the
operands that occur are below `2^40` in magnitude, far from the overflow threshold. -/
def f32 (x : ℚ) : ℚ :=
  if x = 0 then 0
  else
    let e := max (Int.log 2 |x|) (-126)
    let ulp : ℚ := 2 ^ (e - 23)
    roundEven (x / ulp) * ulp

/-- An argument passed to `Serial.printf` after the format string. -/
inductive Arg where
  | int (v : Int)
  | uint (v : Nat)
  | str (s : String)
  | float (v : ℚ)
  deriving DecidableEq

/-- One call on the `Serial` console. -/
inductive Out where
  | printf (fmt : String) (args : List Arg)
  | print (s : String)
  | printHex (v : Nat)
  | println
  deriving DecidableEq

/-- What one pass of the decoder leaves behind: the calls made on `Serial`, in order, and the
indices at which `rx.data` was read, in order. -/
structure Trace where
  serial : List Out
  reads : List Nat
  deriving DecidableEq

/-- Decoder computations: they extend a `Trace`, and fail (`none`) on an access outside an
array, which is undefined behaviour in the source. -/
def M (α : Type) : Type := Trace → Option (α × Trace)

instance instMonadM : Monad M where
  pure a := fun t => some (a, t)
  bind m f := fun t =>
    match m t with
    | none => none
    | some (a, t1) => f a t1

/-- `Serial.printf(fmt, args...)`. -/
def Serial.printf (fmt : String) (args : List Arg) : M Unit :=
  fun t => some ((), { t with serial := t.serial ++ [Out.printf fmt args] })

/-- `Serial.print(s)` of a string. -/
def Serial.print (s : String) : M Unit :=
  fun t => some ((), { t with serial := t.serial ++ [Out.print s] })

/-- `Serial.print(v, HEX)`. -/
def Serial.printHex (v : Nat) : M Unit :=
  fun t => some ((), { t with serial := t.serial ++ [Out.printHex v] })

/-- `Serial.println()`. -/
def Serial.println : M Unit :=
  fun t => some ((), { t with serial := t.serial ++ [Out.println] })

/-- The read `rx.data[i]`; outside the eight bytes of the array it is undefined. -/
def CanFrame.read (rx : CanFrame) (i : Nat) : M Nat :=
  fun t =>
    match rx.data[i]? with
    | none => none
    | some b => some (b, { t with reads := t.reads ++ [i] })

/-- The access `table[i]` to a local array of names; outside the array it is undefined. -/
def index (table : List String) (i : Nat) : M String :=
  fun t =>
    match table[i]? with
    | none => none
    | some s => some (s, t)

/-- The statement `Serial.printf(" %02X", rx.data[i]);`. -/
def dumpBytes.step (rx : CanFrame) (i : Nat) : M Unit := do
  Serial.printf " %02X" [.uint (← rx.read i)]

/-- The loop `for (i = lo; i < hi; ++i) Serial.printf(" %02X", rx.data[i]);`. -/
def dumpBytes (rx : CanFrame) (lo hi : Nat) : M Unit :=
  (List.range' lo (hi - lo)).forM (dumpBytes.step rx)

/-- The big-endian assembly
`(uint32_t)rx.data[1] << 24 | (uint32_t)rx.data[2] << 16 | (uint32_t)rx.data[3] << 8 | rx.data[4]`. -/
def readU32 (rx : CanFrame) : M Nat := do
  let b1 ← rx.read 1
  let b2 ← rx.read 2
  let b3 ← rx.read 3
  let b4 ← rx.read 4
  pure ((b1 <<< 24) % 2 ^ 32 ||| (b2 <<< 16) % 2 ^ 32 ||| (b3 <<< 8) % 2 ^ 32 ||| b4)

/-- One turn `v = (v << 8) | rx.data[i];` of the loop that assembles the 48-bit field, on
the 64-bit pattern of the `int64_t v`. -/
def readI48.step (rx : CanFrame) (v i : Nat) : M Nat := do
  pure ((v <<< 8) % 2 ^ 64 ||| (← rx.read i))

/-- The 48-bit field of responses `0x31` and `0x35`:
`int64_t v = 0; for (i = 1; i <= 6; ++i) v = (v << 8) | rx.data[i];`
`if (v & (int64_t(1) << 47)) v |= ~((int64_t(1) << 48) - 1);`
computed on the 64-bit pattern of `v`. -/
def readI48 (rx : CanFrame) : M Int := do
  let v ← (List.range' 1 6).foldlM (readI48.step rx) 0
  let v := if v &&& ((1 <<< 47) % 2 ^ 64) ≠ 0 then v ||| not64 (((1 <<< 48) % 2 ^ 64) - 1) else v
  pure (toSigned 64 v)

/-- The `"OK"`/`"Fail"` style argument `rx.data[1] ? yes : no`. -/
def flag (rx : CanFrame) (yes no : String) : M Arg := do
  pure (.str (if (← rx.read 1) ≠ 0 then yes else no))

/-- The enumerated status `st = rx.data[1]; st < N ? table[st] : "Unknown"`, where `N` is the
bound written in the source for that table. -/
def status (rx : CanFrame) (table : List String) (N : Nat) : M Arg := do
  let st ← rx.read 1
  if st < N then pure (.str (← index table st)) else pure (.str "Unknown")

/-- The body of the `while` loop of `pollResponses`: decode the received frame `rx`. -/
def pollResponses.body (rx : CanFrame) : M Unit := do
  let code ← rx.read 0
  Serial.printf "RX -> ID=0x%03X  Code=0x%02X: " [.uint rx.id, .uint code]
  if code = 0x30 then
    if rx.dlc ≥ 8 then
      let carry := toSigned 32 (← readU32 rx)
      let val := (((← rx.read 5) <<< 8) ||| (← rx.read 6)) % 2 ^ 16
      Serial.printf "EncCarry=%ld, value=%u\n" [.int carry, .uint val]
  else if code = 0x31 then
    if rx.dlc ≥ 8 then
      let v ← readI48 rx
      Serial.printf "EncAdd=%lld\n" [.int v]
  else if code = 0x32 then
    if rx.dlc ≥ 4 then
      let sp := toSigned 16 ((((← rx.read 1) <<< 8) ||| (← rx.read 2)) % 2 ^ 16)
      Serial.printf "Speed=%d RPM\n" [.int sp]
  else if code = 0x33 then
    if rx.dlc ≥ 6 then
      let p := toSigned 32 (← readU32 rx)
      Serial.printf "Pulses=%ld\n" [.int p]
  else if code = 0x34 then
    if rx.dlc ≥ 2 then
      Serial.printf "IOstat=0b%08b\n" [.uint (← rx.read 1)]
  else if code = 0x35 then
    if rx.dlc ≥ 8 then
      let v ← readI48 rx
      Serial.printf "RawEnc=%lld\n" [.int v]
  else if code = 0x39 then
    if rx.dlc ≥ 6 then
      let err := toSigned 32 (← readU32 rx)
      let deg := f32 (f32 (f32 err * 360) / 51200)
      Serial.printf "ErrTicks=%ld (%.2f°)\n" [.int err, .float deg]
  else if code = 0x3A then
    if rx.dlc ≥ 2 then
      Serial.printf "EN=%s\n" [← flag rx "Enabled" "Disabled"]
  else if code = 0x3B then
    if rx.dlc ≥ 2 then
      Serial.printf "ZeroStatus=%s\n" [← status rx ["Going", "Success", "Fail"] 3]
  else if code = 0x3D then
    if rx.dlc ≥ 2 then
      Serial.printf "ReleaseProt=%s\n" [← flag rx "OK" "Fail"]
  else if code = 0x3E then
    if rx.dlc ≥ 2 then
      Serial.printf "Protected=%s\n" [← flag rx "Yes" "No"]
  else if code ∈ [0x80, 0x82, 0x83, 0x84, 0x85, 0x86, 0x87, 0x88, 0x89, 0x9B,
      0x8A, 0x8B, 0x8C, 0x8D, 0x8F] then
    if rx.dlc ≥ 2 then
      Serial.printf "Cmd0x%02X status=%s\n" [.uint code, ← flag rx "OK" "Fail"]
  else if code ∈ [0x90, 0x92, 0x94, 0x9E] then
    if rx.dlc ≥ 2 then
      Serial.printf "HomeCmd0x%02X status=%s\n" [.uint code, ← flag rx "OK" "Fail"]
  else if code = 0x91 then
    if rx.dlc ≥ 2 then
      Serial.printf "GoHome=%s\n" [← status rx ["Fail", "Start", "Success"] 3]
  else if code ∈ [0x9A, 0x3F, 0x41] then
    if rx.dlc ≥ 2 then
      Serial.printf "Cmd0x%02X status=%s\n" [.uint code, ← flag rx "OK" "Fail"]
  else if code = 0x9D then
    if rx.dlc ≥ 2 then
      Serial.printf "EnTrig/PosErr status=%s\n" [← flag rx "OK" "Fail"]
  else if code = 0x00 then
    if rx.dlc ≥ 2 then
      Serial.print "SysParam0x"
      Serial.printHex (← rx.read 1)
      Serial.print " ="
      dumpBytes rx 2 rx.dlc
      Serial.println
  else if code = 0xF1 then
    if rx.dlc ≥ 2 then
      Serial.printf "Status=%s\n" [← status rx
        ["Fail", "Stop", "SpeedUp", "SpeedDown", "Full", "Homing", "Calibrating"] 7]
  else if code ∈ [0xF3, 0xF7, 0xFF] then
    if rx.dlc ≥ 2 then
      Serial.printf "Cmd0x%02X status=%s\n" [.uint code, ← flag rx "OK" "Fail"]
  else if code = 0xF6 then
    if rx.dlc ≥ 2 then
      Serial.printf "SpeedMode=%s\n" [← status rx
        ["Fail", "Running", "StopStart", "StopOK"] 4]
  else if code = 0xFD then
    if rx.dlc ≥ 2 then
      Serial.printf "PosRel=%s\n" [← status rx
        ["Run fail", "Run starting", "Run complete", "End-stop"] 4]
  else if code = 0xFE then
    if rx.dlc ≥ 2 then
      Serial.printf "PosAbs=%s\n" [← status rx
        ["Fail", "Start", "Complete", "End-limit"] 4]
  else if code = 0xF4 then
    if rx.dlc ≥ 2 then
      Serial.printf "PosAxis=%s\n" [← status rx
        ["Fail", "Start", "Complete", "End-limit"] 4]
  else
    Serial.print "RAW:"
    dumpBytes rx 0 rx.dlc
    Serial.println

set_option linter.unusedVariables false in
/-- The loop `while (_bus->receive(rx, timeoutMs)) { ... }` of `pollResponses`, from the
transport state `bus`, the current contents of the local `rx`, and the trace so far. -/
def pollResponses.loop (timeoutMs : Nat) (bus : ICanBus) (rx : CanFrame) (t : Trace) :
    Option (ICanBus × Trace) :=
  match h : bus.receive rx timeoutMs with
  | none => none
  | some (false, _, bus1) => some (bus1, t)
  | some (true, rx1, bus1) =>
    match pollResponses.body rx1 t with
    | none => none
    | some (_, t1) => pollResponses.loop timeoutMs bus1 rx1 t1
termination_by bus.rxQueue.length
decreasing_by
  unfold ICanBus.receive at h
  split at h
  · simp at h
  · rename_i f rest hq
    split at h
    · simp at h
    · simp only [Option.some.injEq, Prod.mk.injEq, true_and] at h
      rw [← h.2, hq]
      simp

/-- `void pollResponses(uint32_t timeoutMs)`.  The local `CanFrame rx;` is declared without
an initialiser, so its initial contents `rx0` are arbitrary. -/
def pollResponses (bus : ICanBus) (timeoutMs : Nat) (rx0 : CanFrame) (t : Trace) :
    Option (ICanBus × Trace) :=
  pollResponses.loop timeoutMs bus rx0 t

/-- The trace of decoding one received frame, starting from an empty trace. -/
def decode (rx : CanFrame) : Option Trace :=
  (pollResponses.body rx { serial := [], reads := [] }).map (·.2)

/-- The `case` labels of the decoder's `switch`, in source order. -/
def caseLabels : List Nat :=
  [0x30, 0x31, 0x32, 0x33, 0x34, 0x35, 0x39, 0x3A, 0x3B, 0x3D, 0x3E,
   0x80, 0x82, 0x83, 0x84, 0x85, 0x86, 0x87, 0x88, 0x89, 0x9B,
   0x8A, 0x8B, 0x8C, 0x8D, 0x8F,
   0x90, 0x92, 0x94, 0x9E, 0x91, 0x9A, 0x3F, 0x41, 0x9D, 0x00,
   0xF1, 0xF3, 0xF7, 0xFF, 0xF6, 0xFD, 0xFE, 0xF4]

/-- The unsigned number a byte sequence denotes when read most significant byte first. -/
def bigEndian (bytes : List Nat) : Nat :=
  bytes.foldl (fun acc b => acc * 256 + b) 0

/-- The data bytes `lo .. hi` of a frame, both ends included. -/
def CanFrame.bytes (rx : CanFrame) (lo hi : Nat) : List Nat :=
  (rx.data.drop lo).take (hi + 1 - lo)

/-- The enumerated-status responses of the decoder, each with the bound `N` written in its
branch, its format string and its table of names, as they stand in the source. -/
def statusTables : List (Nat × Nat × String × List String) :=
  [(0x3B, 3, "ZeroStatus=%s\n", ["Going", "Success", "Fail"]),
   (0x91, 3, "GoHome=%s\n", ["Fail", "Start", "Success"]),
   (0xF1, 7, "Status=%s\n",
     ["Fail", "Stop", "SpeedUp", "SpeedDown", "Full", "Homing", "Calibrating"]),
   (0xF6, 4, "SpeedMode=%s\n", ["Fail", "Running", "StopStart", "StopOK"]),
   (0xFD, 4, "PosRel=%s\n", ["Run fail", "Run starting", "Run complete", "End-stop"]),
   (0xFE, 4, "PosAbs=%s\n", ["Fail", "Start", "Complete", "End-limit"]),
   (0xF4, 4, "PosAxis=%s\n", ["Fail", "Start", "Complete", "End-limit"])]

/-- The minimum frame length each recognized response code asks for. -/
def minLength (code : Nat) : Nat :=
  if code ∈ [0x30, 0x31, 0x35] then 8
  else if code ∈ [0x33, 0x39] then 6
  else if code = 0x32 then 4
  else 2

/-- The line every decoded frame starts with. -/
def header (rx : CanFrame) : Out :=
  .printf "RX -> ID=0x%03X  Code=0x%02X: " [.uint rx.id, .uint (rx.data.getD 0 0)]

end MKSServoCAN

namespace MKSServoCAN

/-! ## Observations used by the statements -/

/-- The one frame a catalog call hands to the transport: the first entry the call adds to
the transport's `txLog`. -/
def sentFrame (bus : ICanBus) (id : Nat) (c : Command) : Option CanFrame :=
  (c.run bus id).bind fun bus1 => (framesSent bus bus1).head?.map Prod.fst

/-- What a catalog call hands back to its caller: every function of the catalog is declared
`void`, so the caller learns that the call completed and nothing else. -/
def Command.returned (bus : ICanBus) (id : Nat) (c : Command) : Option Unit :=
  (c.run bus id).map fun _ => ()

/-- A transport with nothing sent, nothing pending, that rejects every frame. -/
def rejectingBus : ICanBus :=
  { accept := fun _ _ => false, txLog := [], rxQueue := [], rxLog := [] }

/-- The contents of the local `rx` after a successful `receive` of the pending frame `f`:
identifier and length of `f`, its first `dlc` data bytes, and whatever `rx` held beyond. -/
def deliver (rx f : CanFrame) : CanFrame :=
  { id := f.id, dlc := f.dlc, data := f.data.take f.dlc ++ rx.data.drop f.dlc }

/-- The successive contents of `rx` while the pending frames are received one after the
other, starting from the contents `rx`. -/
def deliveries : CanFrame → List CanFrame → List CanFrame
  | _, [] => []
  | rx, f :: rest => deliver rx f :: deliveries (deliver rx f) rest

/-- The decoded fields of a frame: what the decoder prints after the header line. -/
def decodedFields (rx : CanFrame) : Option (List Out) :=
  (decode rx).map fun tr => tr.serial.drop 1

/-- The highest index of `rx.data` the branch of a recognized response code reads. -/
def maxRead (code : Nat) : Nat :=
  if code ∈ [0x30, 0x31, 0x35] then 6
  else if code ∈ [0x33, 0x39] then 4
  else if code = 0x32 then 2
  else 1

/-- The 24-bit position field of a frame: data bytes 4..6 hold `x mod 2^24`; read back as a
24-bit two's-complement number they give `x` exactly when `-2^23 ≤ x < 2^23`. -/
def PositionField (frame : CanFrame) (x : Int) : Prop :=
  ((bigEndian (frame.bytes 4 6) : Nat) : Int) = x % 2 ^ 24
  ∧ (-2 ^ 23 ≤ x → x < 2 ^ 23 → toSigned 24 (bigEndian (frame.bytes 4 6)) = x)
  ∧ ((x < -2 ^ 23 ∨ 2 ^ 23 ≤ x) → toSigned 24 (bigEndian (frame.bytes 4 6)) ≠ x)

/-- A decoder computation is local when it only appends to the trace it is given: running
it from a trace `t` gives what running it from the empty trace gives, appended to `t`. -/
def Local {α : Type} (m : M α) : Prop :=
  ∀ t : Trace, m t = (m { serial := [], reads := [] }).map fun p =>
    (p.1, { serial := t.serial ++ p.2.serial, reads := t.reads ++ p.2.reads })

end MKSServoCAN

/-! # Theorems -/

namespace MKSServoCAN

/-! ## Checksum: proofs -/

theorem computeCRC.loop_mod (data : List Nat) (n sum : Nat) :
    computeCRC.loop data n sum % 256 = (sum + (data.take n).sum) % 256 := by
  induction n with
  | zero => simp [computeCRC.loop]
  | succ k ih =>
    have hstep : computeCRC.loop data (k + 1) sum
        = (computeCRC.loop data k sum + data.getD k 0) % 2 ^ 32 := by
      simp [computeCRC.loop, List.range_succ, List.foldl_append]
    have htake : (data.take (k + 1)).sum = (data.take k).sum + data.getD k 0 := by
      rcases Nat.lt_or_ge k data.length with h | h
      · rw [List.sum_take_succ data k h]
        simp [List.getElem?_eq_getElem h]
      · rw [List.take_of_length_le h, List.take_of_length_le (by omega)]
        simp [List.getElem?_eq_none h]
    rw [hstep, htake]
    omega

theorem and_0xFF (x : Nat) : x &&& 0xFF = x % 256 :=
  Nat.and_pow_two_sub_one_eq_mod x 8

theorem computeCRC_eq (id : Nat) (payload : List Nat) :
    computeCRC id payload payload.length = (id + payload.sum) % 256 := by
  have h := computeCRC.loop_mod payload payload.length id
  simp only [computeCRC, and_0xFF, List.take_length] at h ⊢
  omega

/-- C1: for every 32-bit identifier and every byte sequence, `computeCRC` over the
whole payload equals `(id + sum of the payload bytes) mod 256` computed over the unbounded
naturals, and `computeCRC(0x01, [0x30]) = 0x31`. -/
theorem computeCRC_eq_sum_mod :
    (∀ (id : Nat) (payload : List Nat),
      computeCRC id payload payload.length = (id + payload.sum) % 256)
    ∧ computeCRC 0x01 [0x30] 1 = 0x31 := by
  have key : ∀ (id : Nat) (payload : List Nat),
      computeCRC id payload payload.length = (id + payload.sum) % 256 :=
    computeCRC_eq
  exact ⟨key, key 1 [0x30]⟩

end MKSServoCAN

namespace MKSServoCAN

/-! ## Frame encoder: proofs -/

theorem memcpy_frame (buf : List Nat) (h : buf.length ≤ 8) :
    memcpy (List.replicate 8 0) buf buf.length
      = some (buf ++ List.replicate (8 - buf.length) 0) := by
  unfold memcpy
  rw [if_pos ⟨by simpa using h, le_rfl⟩, List.take_length, List.drop_replicate]

theorem sendFrame_eq (bus : ICanBus) (id : Nat) (payload : List Nat)
    (h : payload.length ≤ 7) :
    sendFrame bus id payload
      = some { bus with txLog := bus.txLog ++ [(encoded id payload, 100)] } := by
  have hlen : (payload ++ [(id + payload.sum) % 256]).length = payload.length + 1 := by simp
  have hmod : (payload.length + 1) % 256 = payload.length + 1 := by omega
  have hcpy := memcpy_frame (payload ++ [(id + payload.sum) % 256]) (by rw [hlen]; omega)
  rw [hlen] at hcpy
  simp only [sendFrame, computeCRC_eq, hlen, hmod, hcpy, ICanBus.send, encoded,
    show 8 - (payload.length + 1) = 7 - payload.length by omega, List.append_assoc,
    List.singleton_append]

theorem framesSent_append (bus : ICanBus) (l : List (CanFrame × Nat)) :
    framesSent bus { bus with txLog := bus.txLog ++ l } = l := by
  simp [framesSent]

end MKSServoCAN

namespace MKSServoCAN

theorem sendFrame_sent (bus : ICanBus) (id : Nat) (payload : List Nat)
    (h : payload.length ≤ 7) :
    ∃ bus1, sendFrame bus id payload = some bus1
      ∧ framesSent bus bus1 = [(encoded id payload, 100)] :=
  ⟨_, sendFrame_eq bus id payload h, framesSent_append bus _⟩

theorem Command.run_eq_sendFrame (c : Command) (bus : ICanBus) (id : Nat) :
    ∃ payload : List Nat, 1 ≤ payload.length ∧ payload.length ≤ 7
      ∧ c.run bus id = sendFrame bus id payload := by
  cases c <;> dsimp only [Command.run] <;> exact ⟨_, by simp, by simp, rfl⟩

theorem receiverAccepts_encoded (id : Nat) (payload : List Nat) (h : payload.length ≤ 7) :
    receiverAccepts (encoded id payload) = true := by
  simp only [receiverAccepts, encoded, decide_eq_true_eq, Nat.add_sub_cancel]
  refine ⟨by omega, by simp, ?_⟩
  rw [List.take_left, List.getD_eq_getElem?_getD, List.getElem?_append_right le_rfl]
  simp

/-- C2: for every identifier and every payload of at most 7 bytes, `sendFrame` hands
exactly one frame to the transport; it has the given identifier, length `len(payload) + 1`,
the payload as its first data bytes, and as last data byte `(id + sum of the preceding data
bytes) mod 256`; and the frame every catalog command sends passes the receiver's check. -/
theorem sendFrame_appends_checksum :
    (∀ (bus : ICanBus) (id : Nat) (payload : List Nat), payload.length ≤ 7 →
      ∃ bus1 frame, sendFrame bus id payload = some bus1
        ∧ framesSent bus bus1 = [(frame, 100)]
        ∧ frame.id = id
        ∧ frame.dlc = payload.length + 1
        ∧ frame.data.take payload.length = payload
        ∧ frame.data.getD (frame.dlc - 1) 0
            = (id + (frame.data.take (frame.dlc - 1)).sum) % 256)
    ∧ (∀ (c : Command) (bus : ICanBus) (id : Nat),
      ∃ bus1 frame, c.run bus id = some bus1
        ∧ framesSent bus bus1 = [(frame, 100)]
        ∧ receiverAccepts frame = true) := by
  constructor
  · intro bus id payload h
    obtain ⟨bus1, h1, h2⟩ := sendFrame_sent bus id payload h
    have hacc := receiverAccepts_encoded id payload h
    simp only [receiverAccepts, decide_eq_true_eq] at hacc
    refine ⟨bus1, encoded id payload, h1, h2, rfl, rfl, ?_, hacc.2.2⟩
    simp [encoded]
  · intro c bus id
    obtain ⟨payload, _, h7, hrun⟩ := c.run_eq_sendFrame bus id
    obtain ⟨bus1, h1, h2⟩ := sendFrame_sent bus id payload h7
    exact ⟨bus1, encoded id payload, hrun ▸ h1, h2, receiverAccepts_encoded id payload h7⟩

/-- Witness for C2: the frame sent for identifier 1 and payload `[0x30]`. -/
theorem sendFrame_appends_checksum_witness :
    ∃ bus1 frame, sendFrame idleBus 1 [0x30] = some bus1
      ∧ framesSent idleBus bus1 = [(frame, 100)]
      ∧ frame.id = 1
      ∧ frame.dlc = [0x30].length + 1
      ∧ frame.data.take [0x30].length = [0x30]
      ∧ frame.data.getD (frame.dlc - 1) 0
          = (1 + (frame.data.take (frame.dlc - 1)).sum) % 256 :=
  sendFrame_appends_checksum.1 idleBus 1 [0x30] (by decide)

theorem u8_shiftRight_8 (x : Nat) (h : x < 65536) : u8 (x >>> 8) = x / 256 := by
  unfold u8
  rw [Nat.shiftRight_eq_div_pow]
  omega

/-- C3: for every identifier and every 16-bit current `ma`, `setCurrent` sends one frame of
length 4 with data bytes `[0x83, ma div 256, ma mod 256, (id + 0x83 + ma div 256 + ma mod 256)
mod 256]`; for identifier `0x01` and `ma = 500` they are `[0x83, 0x01, 0xF4, 0x79]`. -/
theorem setCurrent_frame :
    (∀ (bus : ICanBus) (id ma : Nat), ma < 65536 →
      ∃ bus1 frame, setCurrent bus id ma = some bus1
        ∧ framesSent bus bus1 = [(frame, 100)]
        ∧ frame.id = id
        ∧ frame.dlc = 4
        ∧ frame.data.take frame.dlc
            = [0x83, ma / 256, ma % 256, (id + 0x83 + ma / 256 + ma % 256) % 256])
    ∧ (∀ bus : ICanBus, ∃ bus1 frame, setCurrent bus 0x01 500 = some bus1
        ∧ framesSent bus bus1 = [(frame, 100)]
        ∧ frame.dlc = 4
        ∧ frame.data.take frame.dlc = [0x83, 0x01, 0xF4, 0x79]) := by
  have key : ∀ (bus : ICanBus) (id ma : Nat), ma < 65536 →
      ∃ bus1 frame, setCurrent bus id ma = some bus1
        ∧ framesSent bus bus1 = [(frame, 100)]
        ∧ frame.id = id
        ∧ frame.dlc = 4
        ∧ frame.data.take frame.dlc
            = [0x83, ma / 256, ma % 256, (id + 0x83 + ma / 256 + ma % 256) % 256] := by
    intro bus id ma hma
    obtain ⟨bus1, h1, h2⟩ :=
      sendFrame_sent bus id [0x83, u8 (ma >>> 8), u8 ma] (by simp)
    refine ⟨bus1, _, h1, h2, rfl, rfl, ?_⟩
    rw [u8_shiftRight_8 ma hma]
    simp [encoded, u8, Nat.add_assoc]
  refine ⟨key, fun bus => ?_⟩
  obtain ⟨bus1, frame, h1, h2, _, h4, h5⟩ := key bus 1 500 (by norm_num)
  exact ⟨bus1, frame, h1, h2, h4, by simpa using h5⟩

/-- Witness for C3: `setCurrent(0x02, 1000)`. -/
theorem setCurrent_frame_witness :
    ∃ bus1 frame, setCurrent idleBus 2 1000 = some bus1
      ∧ framesSent idleBus bus1 = [(frame, 100)]
      ∧ frame.id = 2
      ∧ frame.dlc = 4
      ∧ frame.data.take frame.dlc
          = [0x83, 1000 / 256, 1000 % 256, (2 + 0x83 + 1000 / 256 + 1000 % 256) % 256] :=
  setCurrent_frame.1 idleBus 2 1000 (by decide)

/-- C4: for every command of the catalog, every value of its parameters and every
identifier, the call completes (the copy into the 8-byte frame buffer stays within it) and
the one frame it sends, checksum included, has a data length of at least 2 and at most 8. -/
theorem catalog_frame_length (c : Command) (bus : ICanBus) (id : Nat) :
    ∃ bus1 frame, c.run bus id = some bus1
      ∧ framesSent bus bus1 = [(frame, 100)]
      ∧ 2 ≤ frame.dlc ∧ frame.dlc ≤ 8 ∧ frame.data.length = 8 := by
  obtain ⟨payload, h1, h7, hrun⟩ := c.run_eq_sendFrame bus id
  obtain ⟨bus1, hs, hf⟩ := sendFrame_sent bus id payload h7
  refine ⟨bus1, encoded id payload, hrun ▸ hs, hf, ?_, ?_, ?_⟩
  · simp only [encoded]; omega
  · simp only [encoded]; omega
  · simp [encoded]; omega

end MKSServoCAN

namespace MKSServoCAN

/-! ## Response decoder: proofs -/

/-- A well-typed frame is an identifier, a length and eight bytes. -/
theorem CanFrame.WellTyped.shape {rx : CanFrame} (h : rx.WellTyped) :
    ∃ a0 a1 a2 a3 a4 a5 a6 a7 : Nat,
      rx = { id := rx.id, dlc := rx.dlc, data := [a0, a1, a2, a3, a4, a5, a6, a7] }
      ∧ a0 < 256 ∧ a1 < 256 ∧ a2 < 256 ∧ a3 < 256 ∧ a4 < 256 ∧ a5 < 256 ∧ a6 < 256
      ∧ a7 < 256 := by
  obtain ⟨id, dlc, data⟩ := rx
  obtain ⟨-, -, hlen, hb⟩ := h
  simp only at hlen hb
  match data, hlen with
  | [a0, a1, a2, a3, a4, a5, a6, a7], _ =>
    simp only [List.mem_cons, List.mem_singleton, forall_eq_or_imp, forall_eq] at hb
    simp only [List.not_mem_nil, false_imp_iff, implies_true, and_true] at hb
    exact ⟨a0, a1, a2, a3, a4, a5, a6, a7, rfl, hb⟩

theorem status_run (id dlc a0 st a2 a3 a4 a5 a6 a7 : Nat) (table : List String) (N : Nat)
    (hN : N ≤ table.length) (t : Trace) :
    status { id := id, dlc := dlc, data := [a0, st, a2, a3, a4, a5, a6, a7] } table N t
      = some (.str (if st < N then table.getD st "Unknown" else "Unknown"),
          { t with reads := t.reads ++ [1] }) := by
  by_cases h : st < N
  · have h2 : st < table.length := by omega
    simp [status, index, bind, pure, CanFrame.read, h, List.getElem?_eq_getElem h2]
  · simp [status, bind, pure, CanFrame.read, h]

end MKSServoCAN

namespace MKSServoCAN

/-- C6: for every enumerated-status response code (`0x3B`, `0x91` with 3 names, `0xF1` with
7, `0xF6`, `0xFD`, `0xFE`, `0xF4` with 4) and every frame of length at least 2, decoding
completes without indexing outside the table, a status byte `st < N` is reported as the
`st`-th name of the table, and every status byte `st ≥ N` is reported as `"Unknown"`. -/
theorem status_lookup_bounded (code N : Nat) (fmt : String) (table : List String)
    (hentry : (code, N, fmt, table) ∈ statusTables)
    (rx : CanFrame) (hrx : rx.WellTyped) (hlen : 2 ≤ rx.dlc)
    (hcode : rx.data.getD 0 0 = code) :
    table.length = N
    ∧ (code, N) ∈ [(0x3B, 3), (0x91, 3), (0xF1, 7), (0xF6, 4), (0xFD, 4), (0xFE, 4), (0xF4, 4)]
    ∧ ∃ name, decode rx
          = some { serial := [header rx, .printf fmt [.str name]], reads := [0, 1] }
        ∧ (rx.data.getD 1 0 < N → table[rx.data.getD 1 0]? = some name)
        ∧ (N ≤ rx.data.getD 1 0 → name = "Unknown") := by
  obtain ⟨a0, st, a2, a3, a4, a5, a6, a7, hshape, -, hst, -⟩ := hrx.shape
  rw [hshape] at hcode ⊢
  simp only [List.getD_eq_getElem?_getD, List.getElem?_cons_zero, Option.getD_some,
    List.getElem?_cons_succ] at hcode ⊢
  subst hcode
  simp only [statusTables, List.mem_cons, Prod.mk.injEq, List.mem_singleton,
    List.not_mem_nil, or_false] at hentry
  refine ⟨?_, ?_, if st < N then table.getD st "Unknown" else "Unknown", ?_, ?_, ?_⟩ <;>
    rcases hentry with h | h | h | h | h | h | h <;>
    obtain ⟨rfl, rfl, rfl, rfl⟩ := h
  all_goals first
    | rfl
    | (simp; done)
    | (simp [decode, pollResponses.body, header, bind, status_run, Serial.printf,
        CanFrame.read, hlen]; done)
    | (intro hlt; interval_cases st <;> rfl)

/-- Witness for C6: a `0xF1` response with status byte 7, one past the table. -/
theorem status_lookup_bounded_witness :
    ["Fail", "Stop", "SpeedUp", "SpeedDown", "Full", "Homing", "Calibrating"].length = 7
    ∧ (0xF1, 7) ∈ [(0x3B, 3), (0x91, 3), (0xF1, 7), (0xF6, 4), (0xFD, 4), (0xFE, 4), (0xF4, 4)]
    ∧ ∃ name, decode { id := 1, dlc := 3, data := [0xF1, 7, 0xF9, 0, 0, 0, 0, 0] }
          = some { serial :=
                    [header { id := 1, dlc := 3, data := [0xF1, 7, 0xF9, 0, 0, 0, 0, 0] },
                      .printf "Status=%s\n" [.str name]],
                   reads := [0, 1] }
        ∧ ((7 : Nat) < 7 →
            ["Fail", "Stop", "SpeedUp", "SpeedDown", "Full", "Homing", "Calibrating"][7]?
              = some name)
        ∧ (7 ≤ (7 : Nat) → name = "Unknown") :=
  status_lookup_bounded 0xF1 7 "Status=%s\n"
    ["Fail", "Stop", "SpeedUp", "SpeedDown", "Full", "Homing", "Calibrating"]
    (by simp [statusTables])
    { id := 1, dlc := 3, data := [0xF1, 7, 0xF9, 0, 0, 0, 0, 0] }
    (by simp [CanFrame.WellTyped]) (by decide) rfl

end MKSServoCAN

namespace MKSServoCAN

/-! ### The 48-bit signed field -/

theorem shl8_or (v d : Nat) (hv : v < 2 ^ 56) (hd : d < 256) :
    (v <<< 8) % 2 ^ 64 ||| d = v * 256 + d := by
  have h1 : v <<< 8 = 2 ^ 8 * v := by rw [Nat.shiftLeft_eq, Nat.mul_comm]
  have h2 : 2 ^ 8 * v < 2 ^ 64 := by omega
  rw [h1, Nat.mod_eq_of_lt h2, ← Nat.mul_add_lt_is_or (by simpa using hd) v]
  omega

theorem and_bit47 (v : Nat) (hv : v < 2 ^ 48) :
    v &&& 2 ^ 47 = if 2 ^ 47 ≤ v then 2 ^ 47 else 0 := by
  have hbit : v.testBit 47 = decide (2 ^ 47 ≤ v) := by
    rw [Nat.testBit_to_div_mod]
    congr 1
    apply propext
    constructor <;> intro h <;> omega
  apply Nat.eq_of_testBit_eq
  intro i
  rw [Nat.testBit_and, Nat.testBit_two_pow]
  by_cases hv2 : 2 ^ 47 ≤ v
  · rw [if_pos hv2, Nat.testBit_two_pow]
    by_cases hi : 47 = i
    · subst hi
      rw [hbit]
      simp only [hv2, decide_True, Bool.and_self]
    · simp only [hi, decide_False, Bool.and_false]
  · rw [if_neg hv2, Nat.zero_testBit]
    by_cases hi : 47 = i
    · subst hi
      rw [hbit]
      simp only [hv2, decide_False, Bool.false_and]
    · simp only [hi, decide_False, Bool.and_false]

theorem or_mask48 (v : Nat) (hv : v < 2 ^ 48) :
    v ||| not64 (2 ^ 48 - 1) = 2 ^ 64 - 2 ^ 48 + v := by
  have h : not64 (2 ^ 48 - 1) = 2 ^ 48 * 65535 := by unfold not64; norm_num
  rw [h, Nat.or_comm, ← Nat.mul_add_lt_is_or hv]
  norm_num

/-- Sign extension of a 48-bit pattern as the source does it, on the 64-bit pattern. -/
theorem signExtend48 (v : Nat) (hv : v < 2 ^ 48) :
    toSigned 64 (if v &&& ((1 <<< 47) % 2 ^ 64) ≠ 0
        then v ||| not64 (((1 <<< 48) % 2 ^ 64) - 1) else v)
      = toSigned 48 v := by
  have e47 : (1 <<< 47) % 2 ^ 64 = 2 ^ 47 := by norm_num [Nat.shiftLeft_eq]
  have e48 : (1 <<< 48) % 2 ^ 64 = 2 ^ 48 := by norm_num [Nat.shiftLeft_eq]
  rw [e47, e48, and_bit47 v hv, or_mask48 v hv]
  by_cases h : 2 ^ 47 ≤ v
  · have h1 : ¬ (2 ^ 64 - 2 ^ 48 + v < 2 ^ (64 - 1)) := by omega
    have h2 : ¬ (v < 2 ^ (48 - 1)) := by omega
    have h3 : (2 ^ 47 : Nat) ≠ 0 := by norm_num
    rw [if_pos h, if_pos h3]
    unfold toSigned
    rw [if_neg h1, if_neg h2]
    push_cast
    omega
  · have h2 : v < 2 ^ (48 - 1) := by omega
    have h1 : v < 2 ^ (64 - 1) := by omega
    rw [if_neg h, if_neg (by simp)]
    unfold toSigned
    rw [if_pos h1, if_pos h2]

end MKSServoCAN

namespace MKSServoCAN

theorem readI48_run (id dlc a0 a1 a2 a3 a4 a5 a6 a7 : Nat)
    (h1 : a1 < 256) (h2 : a2 < 256) (h3 : a3 < 256) (h4 : a4 < 256) (h5 : a5 < 256)
    (h6 : a6 < 256) (t : Trace) :
    readI48 { id := id, dlc := dlc, data := [a0, a1, a2, a3, a4, a5, a6, a7] } t
      = some (toSigned 48 (bigEndian [a1, a2, a3, a4, a5, a6]),
          { t with reads := t.reads ++ [1, 2, 3, 4, 5, 6] }) := by
  have hv : bigEndian [a1, a2, a3, a4, a5, a6] < 2 ^ 48 := by
    simp only [bigEndian, List.foldl_cons, List.foldl_nil]
    omega
  have hfold : (List.range' 1 6).foldlM
      (readI48.step { id := id, dlc := dlc, data := [a0, a1, a2, a3, a4, a5, a6, a7] }) 0 t
      = some (bigEndian [a1, a2, a3, a4, a5, a6],
          { t with reads := t.reads ++ [1, 2, 3, 4, 5, 6] }) := by
    simp only [List.range', List.foldlM, readI48.step, bind, pure, CanFrame.read,
      List.getElem?_cons_succ, List.getElem?_cons_zero, List.append_assoc,
      List.singleton_append, List.cons_append, List.nil_append, bigEndian,
      List.foldl_cons, List.foldl_nil]
    rw [shl8_or _ _ (by omega) h1, shl8_or _ _ (by omega) h2, shl8_or _ _ (by omega) h3,
      shl8_or _ _ (by omega) h4, shl8_or _ _ (by omega) h5, shl8_or _ _ (by omega) h6]
  unfold readI48
  simp only [bind, pure, hfold]
  rw [signExtend48 _ hv]

end MKSServoCAN

namespace MKSServoCAN

theorem toSigned48_spec (u : Nat) (hu : u < 2 ^ 48) :
    (u < 2 ^ 47 → toSigned 48 u = u) ∧ (2 ^ 47 ≤ u → toSigned 48 u = (u : Int) - 2 ^ 48)
      ∧ -2 ^ 47 ≤ toSigned 48 u ∧ toSigned 48 u < 2 ^ 47 := by
  unfold toSigned
  by_cases h : u < 2 ^ (48 - 1)
  · rw [if_pos h]
    refine ⟨fun _ => rfl, fun h2 => ?_, ?_, ?_⟩ <;> omega
  · rw [if_neg h]
    refine ⟨fun h2 => ?_, fun _ => rfl, ?_, ?_⟩ <;> omega

/-- C5: for every received frame with response code `0x31` or `0x35` and length at least 8,
the decoder reports the two's-complement reading of the 48-bit big-endian number `u` formed
by data bytes 1..6: `u` itself when `u < 2^47`, `u - 2^48` otherwise, always in
`[-2^47, 2^47)`. -/
theorem decode_signed48 (rx : CanFrame) (hrx : rx.WellTyped)
    (hcode : rx.data.getD 0 0 = 0x31 ∨ rx.data.getD 0 0 = 0x35) (hlen : 8 ≤ rx.dlc) :
    ∃ v : Int,
      decode rx = some
        { serial := [header rx,
            .printf (if rx.data.getD 0 0 = 0x31 then "EncAdd=%lld\n" else "RawEnc=%lld\n")
              [.int v]],
          reads := [0, 1, 2, 3, 4, 5, 6] }
      ∧ (bigEndian (rx.bytes 1 6) < 2 ^ 47 → v = bigEndian (rx.bytes 1 6))
      ∧ (2 ^ 47 ≤ bigEndian (rx.bytes 1 6) → v = (bigEndian (rx.bytes 1 6) : Int) - 2 ^ 48)
      ∧ -2 ^ 47 ≤ v ∧ v < 2 ^ 47 := by
  obtain ⟨a0, a1, a2, a3, a4, a5, a6, a7, hshape, -, h1, h2, h3, h4, h5, h6, -⟩ := hrx.shape
  rw [hshape] at hcode ⊢
  simp only [List.getD_eq_getElem?_getD, List.getElem?_cons_zero, Option.getD_some] at hcode
  have hbytes : CanFrame.bytes
      { id := rx.id, dlc := rx.dlc, data := [a0, a1, a2, a3, a4, a5, a6, a7] } 1 6
      = [a1, a2, a3, a4, a5, a6] := by simp [CanFrame.bytes]
  have hu : bigEndian [a1, a2, a3, a4, a5, a6] < 2 ^ 48 := by
    simp only [bigEndian, List.foldl_cons, List.foldl_nil]
    omega
  refine ⟨toSigned 48 (bigEndian [a1, a2, a3, a4, a5, a6]), ?_, ?_⟩
  · rcases hcode with rfl | rfl <;>
      simp [decode, pollResponses.body, header, bind, Serial.printf, CanFrame.read, hlen,
        readI48_run, h1, h2, h3, h4, h5, h6]
  · rw [hbytes]
    exact toSigned48_spec _ hu

/-- Witness for C5: a `0x31` response carrying `FF FF FF FF FF FE`, that is `-2`. -/
theorem decode_signed48_witness :
    ∃ v : Int,
      decode { id := 1, dlc := 8, data := [0x31, 0xFF, 0xFF, 0xFF, 0xFF, 0xFF, 0xFE, 0x2C] }
        = some
        { serial :=
            [header { id := 1, dlc := 8, data := [0x31, 0xFF, 0xFF, 0xFF, 0xFF, 0xFF, 0xFE, 0x2C] },
              .printf (if [0x31, 0xFF, 0xFF, 0xFF, 0xFF, 0xFF, 0xFE, 0x2C].getD 0 0 = 0x31
                then "EncAdd=%lld\n" else "RawEnc=%lld\n") [.int v]],
          reads := [0, 1, 2, 3, 4, 5, 6] }
      ∧ (bigEndian [0xFF, 0xFF, 0xFF, 0xFF, 0xFF, 0xFE] < 2 ^ 47 →
          v = bigEndian [0xFF, 0xFF, 0xFF, 0xFF, 0xFF, 0xFE])
      ∧ (2 ^ 47 ≤ bigEndian [0xFF, 0xFF, 0xFF, 0xFF, 0xFF, 0xFE] →
          v = (bigEndian [0xFF, 0xFF, 0xFF, 0xFF, 0xFF, 0xFE] : Int) - 2 ^ 48)
      ∧ -2 ^ 47 ≤ v ∧ v < 2 ^ 47 :=
  decode_signed48 { id := 1, dlc := 8, data := [0x31, 0xFF, 0xFF, 0xFF, 0xFF, 0xFF, 0xFE, 0x2C] }
    (by simp [CanFrame.WellTyped]) (Or.inl rfl) (by decide)

end MKSServoCAN

namespace MKSServoCAN

/-! ### The default branch -/

theorem dumpBytes.step_run (rx : CanFrame) (i : Nat) (h : i < rx.data.length) (t : Trace) :
    dumpBytes.step rx i t
      = some ((), { serial := t.serial ++ [Out.printf " %02X" [.uint rx.data[i]]],
                    reads := t.reads ++ [i] }) := by
  simp [dumpBytes.step, bind, CanFrame.read, Serial.printf, List.getElem?_eq_getElem h]

theorem forM_cons_run (f : Nat → M Unit) (a : Nat) (l : List Nat) (t : Trace) :
    (a :: l).forM f t = match f a t with
      | none => none
      | some (_, t1) => l.forM f t1 := by
  rw [List.forM]
  simp only [bind]
  cases f a t <;> rfl

theorem dumpBytes_run (rx : CanFrame) (lo n : Nat) (h : lo + n ≤ rx.data.length) (t : Trace) :
    dumpBytes rx lo (lo + n) t
      = some ((), { serial := t.serial
                      ++ ((rx.data.drop lo).take n).map (fun b => Out.printf " %02X" [.uint b]),
                    reads := t.reads ++ List.range' lo n }) := by
  unfold dumpBytes
  rw [Nat.add_sub_cancel_left]
  induction n generalizing lo t with
  | zero => simp [List.range', pure]
  | succ k ih =>
    have hlo : lo < rx.data.length := by omega
    have hdrop : rx.data.drop lo = rx.data[lo] :: rx.data.drop (lo + 1) :=
      List.drop_eq_getElem_cons hlo
    rw [List.range', forM_cons_run, dumpBytes.step_run rx lo hlo]
    simp only
    rw [ih (lo + 1) (by omega), hdrop]
    simp only [List.take_succ_cons, List.map_cons, List.append_assoc, List.singleton_append,
      List.range']

end MKSServoCAN

namespace MKSServoCAN

theorem dumpBytes_all (rx : CanFrame) (n : Nat) (h : n ≤ rx.data.length) (t : Trace) :
    dumpBytes rx 0 n t
      = some ((), { serial := t.serial
                      ++ (rx.data.take n).map (fun b => Out.printf " %02X" [.uint b]),
                    reads := t.reads ++ List.range n }) := by
  have := dumpBytes_run rx 0 n (by omega) t
  rw [Nat.zero_add] at this
  rw [this, List.drop_zero, List.range_eq_range']

/-- C7: for every received frame of length at most 8 whose first data byte is not a `case`
label of the decoder's `switch` (`0x50` is not one), decoding completes and reports a raw
dump of exactly the first `length` data bytes of the frame, in order. -/
theorem unrecognized_code_raw_dump :
    0x50 ∉ caseLabels
    ∧ ∀ rx : CanFrame, rx.WellTyped → rx.dlc ≤ 8 → rx.data.getD 0 0 ∉ caseLabels →
      decode rx = some
        { serial := [header rx, .print "RAW:"]
            ++ (rx.data.take rx.dlc).map (fun b => Out.printf " %02X" [.uint b])
            ++ [.println],
          reads := 0 :: List.range rx.dlc } := by
  refine ⟨by decide, fun rx hrx hlen hcode => ?_⟩
  obtain ⟨a0, a1, a2, a3, a4, a5, a6, a7, hshape, -⟩ := hrx.shape
  have hdata : rx.dlc ≤ rx.data.length := by rw [hshape]; simpa using hlen
  have h0 : rx.data[0]? = some a0 := by rw [hshape]; rfl
  have hget : rx.data.getD 0 0 = a0 := by rw [hshape]; rfl
  rw [hget] at hcode
  simp only [caseLabels, List.mem_cons, List.mem_singleton, List.not_mem_nil, or_false,
    not_or] at hcode
  simp [decode, pollResponses.body, header, bind, Serial.printf, Serial.print, Serial.println,
    CanFrame.read, h0, hget, hcode, dumpBytes_all rx rx.dlc hdata]

/-- Witness for C7: a three-byte frame with the unknown code `0x50`. -/
theorem unrecognized_code_raw_dump_witness :
    decode { id := 1, dlc := 3, data := [0x50, 0x01, 0x52, 0, 0, 0, 0, 0] } = some
      { serial := [header { id := 1, dlc := 3, data := [0x50, 0x01, 0x52, 0, 0, 0, 0, 0] },
            .print "RAW:"]
          ++ ([0x50, 0x01, 0x52, 0, 0, 0, 0, 0].take 3).map
              (fun b => Out.printf " %02X" [.uint b])
          ++ [.println],
        reads := 0 :: List.range 3 } :=
  unrecognized_code_raw_dump.2 { id := 1, dlc := 3, data := [0x50, 0x01, 0x52, 0, 0, 0, 0, 0] }
    (by simp [CanFrame.WellTyped]) (by decide) (by decide)

end MKSServoCAN

namespace MKSServoCAN

/-! ### Minimum lengths -/

/-- A frame shorter than its code's minimum: only the header line, only the code read. -/
theorem decode_short (id dlc a0 a1 a2 a3 a4 a5 a6 a7 : Nat)
    (hcode : a0 ∈ caseLabels) (hd : dlc < minLength a0) :
    decode { id := id, dlc := dlc, data := [a0, a1, a2, a3, a4, a5, a6, a7] }
      = some { serial := [header { id := id, dlc := dlc,
                                   data := [a0, a1, a2, a3, a4, a5, a6, a7] }],
               reads := [0] } := by
  simp only [caseLabels, List.mem_cons, List.mem_singleton, List.not_mem_nil, or_false] at hcode
  rcases hcode with rfl | rfl | rfl | rfl | rfl | rfl | rfl | rfl | rfl | rfl | rfl | rfl | rfl | rfl | rfl | rfl | rfl | rfl | rfl | rfl | rfl | rfl | rfl | rfl | rfl | rfl | rfl | rfl | rfl | rfl | rfl | rfl | rfl | rfl | rfl | rfl | rfl | rfl | rfl | rfl | rfl | rfl | rfl | rfl <;>
    simp [minLength] at hd <;>
    simp [decode, pollResponses.body, header, bind, pure, Serial.printf,
      CanFrame.read, hd, Nat.not_le.mpr hd]

/-- The `0x00` response of sufficient length: the parameter index and the bytes after it. -/
theorem decode_sysParam (id n a1 a2 a3 a4 a5 a6 a7 : Nat) (hlen : 2 + n ≤ 8) :
    decode { id := id, dlc := 2 + n, data := [0, a1, a2, a3, a4, a5, a6, a7] }
      = some { serial :=
                [header { id := id, dlc := 2 + n, data := [0, a1, a2, a3, a4, a5, a6, a7] },
                  .print "SysParam0x", .printHex a1, .print " ="]
                ++ (([0, a1, a2, a3, a4, a5, a6, a7].drop 2).take n).map
                    (fun b => Out.printf " %02X" [.uint b])
                ++ [.println],
               reads := [0, 1] ++ List.range' 2 n } := by
  have hdump := dumpBytes_run { id := id, dlc := 2 + n, data := [0, a1, a2, a3, a4, a5, a6, a7] }
    2 n (by simpa using hlen)
  simp [decode, pollResponses.body, header, bind, pure, Serial.printf,
    Serial.print, Serial.println, Serial.printHex, CanFrame.read, hdump]

/-- A frame at least as long as its code's minimum: something is reported after the header
line, and every index read is below the length. -/
theorem decode_long (id dlc a0 a1 a2 a3 a4 a5 a6 a7 : Nat)
    (hcode : a0 ∈ caseLabels) (hlen : dlc ≤ 8) (hd : minLength a0 ≤ dlc) :
    ∃ tr, decode { id := id, dlc := dlc, data := [a0, a1, a2, a3, a4, a5, a6, a7] } = some tr
      ∧ tr.serial ≠ [header { id := id, dlc := dlc, data := [a0, a1, a2, a3, a4, a5, a6, a7] }]
      ∧ ∀ i ∈ tr.reads, i < dlc := by
  simp only [caseLabels, List.mem_cons, List.mem_singleton, List.not_mem_nil, or_false] at hcode
  rcases hcode with rfl | rfl | rfl | rfl | rfl | rfl | rfl | rfl | rfl | rfl | rfl | rfl | rfl | rfl | rfl | rfl | rfl | rfl | rfl | rfl | rfl | rfl | rfl | rfl | rfl | rfl | rfl | rfl | rfl | rfl | rfl | rfl | rfl | rfl | rfl | rfl | rfl | rfl | rfl | rfl | rfl | rfl | rfl | rfl <;>
    simp [minLength] at hd
  all_goals first
    | (simp [decode, pollResponses.body, header, bind, pure, Serial.printf,
        CanFrame.read, hd, status_run, flag, readU32, readI48, readI48.step, List.foldlM,
        List.range']
       omega)
    | skip
  obtain ⟨n, rfl⟩ : ∃ n, dlc = 2 + n := ⟨dlc - 2, by omega⟩
  refine ⟨_, decode_sysParam id n a1 a2 a3 a4 a5 a6 a7 hlen, by simp, fun i hi => ?_⟩
  simp only [List.cons_append, List.nil_append, List.mem_cons] at hi
  rcases hi with rfl | rfl | hi
  · omega
  · omega
  · have := List.mem_range'_1.mp hi
    omega

/-- C8: for every recognized response code and every received frame of length at most 8,
decoding completes; if the length is below the code's minimum (8 for `0x30`, `0x31`, `0x35`;
6 for `0x33`, `0x39`; 4 for `0x32`; 2 otherwise) nothing is reported beyond the header line
and no data byte is read beyond the code; otherwise a decoded value is reported and every
data index read is strictly less than the frame's length. -/
theorem short_frames_skipped (rx : CanFrame) (hrx : rx.WellTyped) (hlen : rx.dlc ≤ 8)
    (hcode : rx.data.getD 0 0 ∈ caseLabels) :
    ∃ tr, decode rx = some tr
      ∧ (rx.dlc < minLength (rx.data.getD 0 0) → tr.serial = [header rx] ∧ tr.reads = [0])
      ∧ (minLength (rx.data.getD 0 0) ≤ rx.dlc →
          tr.serial ≠ [header rx] ∧ ∀ i ∈ tr.reads, i < rx.dlc) := by
  obtain ⟨a0, a1, a2, a3, a4, a5, a6, a7, hshape, -⟩ := hrx.shape
  obtain ⟨id, dlc, data⟩ := rx
  simp only [CanFrame.mk.injEq, true_and] at hshape
  subst hshape
  simp only [List.getD_eq_getElem?_getD, List.getElem?_cons_zero, Option.getD_some] at hcode ⊢
  simp only at hlen
  by_cases hd : dlc < minLength a0
  · exact ⟨_, decode_short id dlc a0 a1 a2 a3 a4 a5 a6 a7 hcode hd,
      fun _ => ⟨rfl, rfl⟩, fun h => absurd hd (Nat.not_lt.mpr h)⟩
  · obtain ⟨tr, h1, h2, h3⟩ :=
      decode_long id dlc a0 a1 a2 a3 a4 a5 a6 a7 hcode hlen (Nat.not_lt.mp hd)
    exact ⟨tr, h1, fun h => absurd h hd, fun _ => ⟨h2, h3⟩⟩

/-- Witness for C8: a `0x33` response one byte short of its minimum of 6. -/
theorem short_frames_skipped_witness :
    ∃ tr, decode { id := 1, dlc := 5, data := [0x33, 0, 0, 1, 0, 0, 0, 0] } = some tr
      ∧ ((5 : Nat) < minLength ([0x33, 0, 0, 1, 0, 0, 0, 0].getD 0 0) →
          tr.serial = [header { id := 1, dlc := 5, data := [0x33, 0, 0, 1, 0, 0, 0, 0] }]
            ∧ tr.reads = [0])
      ∧ (minLength ([0x33, 0, 0, 1, 0, 0, 0, 0].getD 0 0) ≤ 5 →
          tr.serial ≠ [header { id := 1, dlc := 5, data := [0x33, 0, 0, 1, 0, 0, 0, 0] }]
            ∧ ∀ i ∈ tr.reads, i < 5) :=
  short_frames_skipped { id := 1, dlc := 5, data := [0x33, 0, 0, 1, 0, 0, 0, 0] }
    (by simp [CanFrame.WellTyped]) (by decide) (by decide)

end MKSServoCAN

namespace MKSServoCAN

/-! ## Direction and speed bytes -/

theorem dirSpeed_layout (s : Nat) (ccw : Bool) :
    DirSpeedLayout (u8 ((if ccw then 0x80 else 0) ||| ((s >>> 8) &&& 0x0F)))
      (u8 (s &&& 0xFF)) s ccw := by
  have hx : (s >>> 8) &&& 0x0F = s / 256 % 16 := by
    rw [Nat.shiftRight_eq_div_pow]
    exact Nat.and_pow_two_sub_one_eq_mod _ 4
  have hx16 : s / 256 % 16 < 16 := Nat.mod_lt _ (by norm_num)
  have hor : (0x80 : Nat) ||| (s / 256 % 16) = 128 + s / 256 % 16 := by
    have := Nat.mul_add_lt_is_or (i := 7) (b := s / 256 % 16) (by omega) 1
    simpa using this.symm
  have hb1 : u8 ((if ccw then 0x80 else 0) ||| ((s >>> 8) &&& 0x0F))
      = (if ccw then 128 else 0) + s / 256 % 16 := by
    rw [hx]
    cases ccw
    · simp only [Bool.false_eq_true, if_false, Nat.zero_or, u8, Nat.zero_add]
      omega
    · simp only [if_true, hor, u8]
      omega
  have hb2 : u8 (s &&& 0xFF) = s % 256 := by
    rw [and_0xFF, u8, Nat.mod_mod]
  rw [hb1, hb2]
  have hbit : ∀ k, ((if ccw then 128 else 0) + s / 256 % 16).testBit k
      = decide (((if ccw then 128 else 0) + s / 256 % 16) / 2 ^ k % 2 = 1) :=
    fun k => Nat.testBit_to_div_mod
  refine ⟨?_, ?_, ?_, ?_, rfl, ?_, ?_⟩
  · rw [hbit]
    cases ccw <;> simp <;> omega
  · intro k h4 h6
    rw [hbit]
    interval_cases k <;> cases ccw <;> simp <;> omega
  · intro k h3
    rw [hbit, Nat.testBit_to_div_mod]
    interval_cases k <;> cases ccw <;> simp <;> omega
  · cases ccw <;> simp <;> omega
  · cases ccw <;> simp <;> omega
  · intro h
    cases ccw <;> simp <;> omega

end MKSServoCAN

namespace MKSServoCAN

/-- C10: for every identifier, 16-bit speed `s`, acceleration and direction flag, the frames
built by `speedMode` and `posRelative` carry in data byte 1 the direction in bit 7, zeros in
bits 6..4 and bits 11..8 of `s` in bits 3..0, and `s mod 256` in data byte 2; the speed
reassembled as `(byte1 mod 16) * 256 + byte2` is `s mod 4096`, and `s` when `s < 4096`. -/
theorem speed_direction_packing (bus : ICanBus) (id s a p : Nat) (ccw : Bool)
    (_hs : s < 65536) :
    (∃ bus1 frame, speedMode bus id s a ccw = some bus1
      ∧ framesSent bus bus1 = [(frame, 100)]
      ∧ DirSpeedLayout (frame.data.getD 1 0) (frame.data.getD 2 0) s ccw)
    ∧ (∃ bus1 frame, posRelative bus id p s a ccw = some bus1
      ∧ framesSent bus bus1 = [(frame, 100)]
      ∧ DirSpeedLayout (frame.data.getD 1 0) (frame.data.getD 2 0) s ccw) := by
  constructor
  · obtain ⟨bus1, h1, h2⟩ := sendFrame_sent bus id
      [0xF6, u8 ((if ccw then 0x80 else 0) ||| ((s >>> 8) &&& 0x0F)), u8 (s &&& 0xFF), a]
      (by simp)
    exact ⟨bus1, _, h1, h2, dirSpeed_layout s ccw⟩
  · obtain ⟨bus1, h1, h2⟩ := sendFrame_sent bus id
      [0xFD, u8 ((if ccw then 0x80 else 0) ||| ((s >>> 8) &&& 0x0F)), u8 (s &&& 0xFF), a,
        u8 (p >>> 16), u8 (p >>> 8), u8 p]
      (by simp)
    exact ⟨bus1, _, h1, h2, dirSpeed_layout s ccw⟩

/-- Witness for C10: speed 1000 (`0x3E8`), counter-clockwise. -/
theorem speed_direction_packing_witness :
    (∃ bus1 frame, speedMode idleBus 1 1000 2 true = some bus1
      ∧ framesSent idleBus bus1 = [(frame, 100)]
      ∧ DirSpeedLayout (frame.data.getD 1 0) (frame.data.getD 2 0) 1000 true)
    ∧ (∃ bus1 frame, posRelative idleBus 1 4096 1000 2 true = some bus1
      ∧ framesSent idleBus bus1 = [(frame, 100)]
      ∧ DirSpeedLayout (frame.data.getD 1 0) (frame.data.getD 2 0) 1000 true) :=
  speed_direction_packing idleBus 1 1000 2 4096 true (by decide)

end MKSServoCAN

namespace MKSServoCAN

/-! ## Single-precision rounding -/

theorem roundEven_abs_sub_le (x : ℚ) : |(roundEven x : ℚ) - x| ≤ 1 / 2 := by
  have h1 := Int.floor_le x
  have h2 := Int.lt_floor_add_one x
  unfold roundEven
  simp only
  split_ifs with ha hb hc
  · rw [abs_le]; constructor <;> linarith
  · rw [abs_le]; push_cast; constructor <;> linarith
  · rw [abs_le]; constructor <;> linarith
  · rw [abs_le]; push_cast; constructor <;> linarith

theorem roundEven_eq_of_abs_lt (x : ℚ) (m : ℤ) (h : |x - m| < 1 / 2) : roundEven x = m := by
  have h1 := roundEven_abs_sub_le x
  have h2 : |((roundEven x - m : ℤ) : ℚ)| < 1 := by
    have : ((roundEven x - m : ℤ) : ℚ) = ((roundEven x : ℚ) - x) + (x - m) := by
      push_cast; ring
    rw [this]
    calc |((roundEven x : ℚ) - x) + (x - m)| ≤ |(roundEven x : ℚ) - x| + |x - m| := abs_add _ _
      _ < 1 := by linarith
  have h3 : |roundEven x - m| < 1 := by exact_mod_cast h2
  have h4 := Int.abs_lt_one_iff.mp h3
  omega

theorem log_abs_eq (x : ℚ) (e : ℤ) (hlo : (2 : ℚ) ^ e ≤ |x|) (hhi : |x| < (2 : ℚ) ^ (e + 1)) :
    Int.log 2 |x| = e := by
  have hpos : 0 < |x| := lt_of_lt_of_le (by positivity) hlo
  have h1 : e ≤ Int.log 2 |x| := (Int.zpow_le_iff_le_log (by norm_num) hpos).mp (by exact_mod_cast hlo)
  have h2 : Int.log 2 |x| < e + 1 :=
    (Int.lt_zpow_iff_log_lt (by norm_num) hpos).mp (by exact_mod_cast hhi)
  omega

theorem f32_eq (x : ℚ) (e : ℤ) (he : -126 ≤ e) (hlo : (2 : ℚ) ^ e ≤ |x|)
    (hhi : |x| < (2 : ℚ) ^ (e + 1)) :
    f32 x = roundEven (x / 2 ^ (e - 23)) * 2 ^ (e - 23) := by
  have hpos : 0 < |x| := lt_of_lt_of_le (by positivity) hlo
  have hx : x ≠ 0 := abs_pos.mp hpos
  unfold f32
  rw [if_neg hx, log_abs_eq x e hlo hhi, max_eq_left he]

theorem f32_zero : f32 0 = 0 := by simp [f32]

/-- Rounding to `float` moves a value of normal magnitude by at most `2^-24` of itself. -/
theorem f32_rel_error (x : ℚ) (hx : (2 : ℚ) ^ (-126 : ℤ) ≤ |x|) :
    |f32 x - x| ≤ |x| / 2 ^ 24 := by
  have hpos : 0 < |x| := lt_of_lt_of_le (by positivity) hx
  have hlog : (-126 : ℤ) ≤ Int.log 2 |x| :=
    (Int.zpow_le_iff_le_log (by norm_num) hpos).mp (by exact_mod_cast hx)
  have hlo : (2 : ℚ) ^ (Int.log 2 |x|) ≤ |x| := by
    exact_mod_cast Int.zpow_log_le_self (b := 2) (by norm_num) hpos
  have hhi : |x| < (2 : ℚ) ^ (Int.log 2 |x| + 1) := by
    exact_mod_cast Int.lt_zpow_succ_log_self (b := 2) (by norm_num) |x|
  rw [f32_eq x _ hlog hlo hhi]
  set e := Int.log 2 |x| with he
  have hulp : (0 : ℚ) < 2 ^ (e - 23) := by positivity
  have hr := roundEven_abs_sub_le (x / 2 ^ (e - 23))
  have hsplit : (roundEven (x / 2 ^ (e - 23)) : ℚ) * 2 ^ (e - 23) - x
      = ((roundEven (x / 2 ^ (e - 23)) : ℚ) - x / 2 ^ (e - 23)) * 2 ^ (e - 23) := by
    field_simp
  rw [hsplit, abs_mul, abs_of_pos hulp]
  have hpow : (2 : ℚ) ^ (e - 23) = 2 ^ e / 2 ^ 23 := by
    rw [zpow_sub₀ (by norm_num)]
    norm_num
  calc |(roundEven (x / 2 ^ (e - 23)) : ℚ) - x / 2 ^ (e - 23)| * 2 ^ (e - 23)
      ≤ 1 / 2 * 2 ^ (e - 23) := by gcongr
    _ = 2 ^ e / 2 ^ 24 := by rw [hpow]; ring
    _ ≤ |x| / 2 ^ 24 := by gcongr

theorem f32_bounds_pos (x : ℚ) (hx : 1 / 1024 ≤ x) :
    x - x / 2 ^ 24 ≤ f32 x ∧ f32 x ≤ x + x / 2 ^ 24 := by
  have hpos : 0 < x := by linarith
  have htiny : (2 : ℚ) ^ (-126 : ℤ) ≤ 1 / 1024 := by norm_num
  have h := f32_rel_error x (by rw [abs_of_pos hpos]; exact le_trans htiny hx)
  rw [abs_of_pos hpos, abs_le] at h
  constructor <;> linarith [h.1, h.2]

theorem f32_bounds_neg (x : ℚ) (hx : x ≤ -(1 / 1024)) :
    x + x / 2 ^ 24 ≤ f32 x ∧ f32 x ≤ x - x / 2 ^ 24 := by
  have hneg : x < 0 := by linarith
  have htiny : (2 : ℚ) ^ (-126 : ℤ) ≤ 1 / 1024 := by norm_num
  have h := f32_rel_error x (by rw [abs_of_neg hneg]; exact le_trans htiny (by linarith))
  rw [abs_of_neg hneg, abs_le] at h
  constructor <;> linarith [h.1, h.2]

theorem angle_error_pos (a : ℚ) (ha : 1 ≤ a) :
    |f32 (f32 (f32 a * 360) / 51200) - a * 360 / 51200| ≤ a * 360 / 51200 / 2 ^ 22 := by
  have h1 := f32_bounds_pos a (by linarith)
  norm_num at h1
  have h2 := f32_bounds_pos (f32 a * 360) (by linarith)
  norm_num at h2
  have h3 := f32_bounds_pos (f32 (f32 a * 360) / 51200) (by linarith)
  norm_num at h3
  rw [abs_le]
  norm_num
  constructor <;> linarith

theorem angle_error_neg (a : ℚ) (ha : a ≤ -1) :
    |f32 (f32 (f32 a * 360) / 51200) - a * 360 / 51200| ≤ -(a * 360 / 51200) / 2 ^ 22 := by
  have h1 := f32_bounds_neg a (by linarith)
  norm_num at h1
  have h2 := f32_bounds_neg (f32 a * 360) (by linarith)
  norm_num at h2
  have h3 := f32_bounds_neg (f32 (f32 a * 360) / 51200) (by linarith)
  norm_num at h3
  rw [abs_le]
  norm_num
  constructor <;> linarith

/-- The angle computed in `float` is within `2^-22` (relative) of the exact quotient. -/
theorem angle_error (err : ℤ) :
    |f32 (f32 (f32 err * 360) / 51200) - (err : ℚ) * 360 / 51200|
      ≤ |(err : ℚ) * 360 / 51200| / 2 ^ 22 := by
  rcases lt_trichotomy err 0 with h | h | h
  · have ha : (err : ℚ) ≤ -1 := by exact_mod_cast (by omega : err ≤ -1)
    have hE : |(err : ℚ) * 360 / 51200| = -((err : ℚ) * 360 / 51200) :=
      abs_of_neg (by linarith)
    rw [hE]
    exact angle_error_neg _ ha
  · subst h
    simp [f32_zero]
  · have ha : (1 : ℚ) ≤ err := by exact_mod_cast (by omega : 1 ≤ err)
    have hE : |(err : ℚ) * 360 / 51200| = (err : ℚ) * 360 / 51200 :=
      abs_of_pos (by linarith)
    rw [hE]
    exact angle_error_pos _ ha


/-! ## The angle-error response -/

theorem readU32_run (id dlc a0 a1 a2 a3 a4 a5 a6 a7 : Nat)
    (h1 : a1 < 256) (h2 : a2 < 256) (h3 : a3 < 256) (h4 : a4 < 256) (t : Trace) :
    readU32 { id := id, dlc := dlc, data := [a0, a1, a2, a3, a4, a5, a6, a7] } t
      = some (bigEndian [a1, a2, a3, a4], { t with reads := t.reads ++ [1, 2, 3, 4] }) := by
  have e1 : (a1 <<< 24) % 2 ^ 32 = 2 ^ 24 * a1 := by
    rw [Nat.shiftLeft_eq, Nat.mul_comm]
    exact Nat.mod_eq_of_lt (by omega)
  have e2 : (a2 <<< 16) % 2 ^ 32 = 2 ^ 16 * a2 := by
    rw [Nat.shiftLeft_eq, Nat.mul_comm]
    exact Nat.mod_eq_of_lt (by omega)
  have e3 : (a3 <<< 8) % 2 ^ 32 = 2 ^ 8 * a3 := by
    rw [Nat.shiftLeft_eq, Nat.mul_comm]
    exact Nat.mod_eq_of_lt (by omega)
  have o1 : 2 ^ 24 * a1 ||| 2 ^ 16 * a2 = 2 ^ 16 * (2 ^ 8 * a1 + a2) := by
    rw [← Nat.mul_add_lt_is_or (by omega) a1]
    omega
  have o2 : 2 ^ 16 * (2 ^ 8 * a1 + a2) ||| 2 ^ 8 * a3
      = 2 ^ 8 * (2 ^ 8 * (2 ^ 8 * a1 + a2) + a3) := by
    rw [← Nat.mul_add_lt_is_or (by omega) (2 ^ 8 * a1 + a2)]
    omega
  have o3 : 2 ^ 8 * (2 ^ 8 * (2 ^ 8 * a1 + a2) + a3) ||| a4
      = bigEndian [a1, a2, a3, a4] := by
    rw [← Nat.mul_add_lt_is_or (by omega) (2 ^ 8 * (2 ^ 8 * a1 + a2) + a3)]
    simp only [bigEndian, List.foldl_cons, List.foldl_nil]
    omega
  simp only [readU32, bind, pure, CanFrame.read, List.getElem?_cons_succ,
    List.getElem?_cons_zero, e1, e2, e3, o1, o2, o3, List.append_assoc, List.singleton_append,
    List.cons_append, List.nil_append]

theorem decode_angleError (id dlc a1 a2 a3 a4 a5 a6 a7 : Nat) (hlen : 6 ≤ dlc)
    (h1 : a1 < 256) (h2 : a2 < 256) (h3 : a3 < 256) (h4 : a4 < 256) :
    decode { id := id, dlc := dlc, data := [0x39, a1, a2, a3, a4, a5, a6, a7] }
      = some
        { serial :=
            [header { id := id, dlc := dlc, data := [0x39, a1, a2, a3, a4, a5, a6, a7] },
              .printf "ErrTicks=%ld (%.2f°)\n"
                [.int (toSigned 32 (bigEndian [a1, a2, a3, a4])),
                  .float (f32 (f32 (f32 (toSigned 32 (bigEndian [a1, a2, a3, a4])) * 360)
                    / 51200))]],
          reads := [0, 1, 2, 3, 4] } := by
  simp [decode, pollResponses.body, header, bind, Serial.printf, CanFrame.read, hlen,
    readU32_run, h1, h2, h3, h4]

theorem f32_angle_512 : f32 (f32 (f32 512 * 360) / 51200) = 7549747 / 2097152 := by
  have e1 : f32 512 = 512 := by
    rw [f32_eq 512 9 (by norm_num) (by norm_num) (by norm_num),
      roundEven_eq_of_abs_lt _ 8388608 (by norm_num)]
    norm_num
  have e2 : f32 (512 * 360) = 184320 := by
    rw [f32_eq (512 * 360) 17 (by norm_num) (by norm_num) (by norm_num),
      roundEven_eq_of_abs_lt _ 11796480 (by norm_num)]
    norm_num
  have e3 : f32 (184320 / 51200) = 7549747 / 2097152 := by
    rw [f32_eq (184320 / 51200) 1 (by norm_num) (by norm_num [abs_of_pos])
        (by norm_num [abs_of_pos]),
      roundEven_eq_of_abs_lt _ 15099494 (by norm_num [abs_lt])]
    norm_num
  rw [e1, e2, e3]

end MKSServoCAN

namespace MKSServoCAN

/-- C9 as stated fails: for the `0x39` response carrying 512 ticks the decoder reports the
`float` value `7549747 / 2097152` (about 3.5999999), which is not the rational
`512 * 360 / 51200 = 18 / 5`. -/
theorem angle_not_exact_rational :
    decode { id := 1, dlc := 6, data := [0x39, 0, 0, 2, 0, 0x3C, 0, 0] }
      = some
        { serial := [header { id := 1, dlc := 6, data := [0x39, 0, 0, 2, 0, 0x3C, 0, 0] },
            .printf "ErrTicks=%ld (%.2f°)\n" [.int 512, .float (7549747 / 2097152)]],
          reads := [0, 1, 2, 3, 4] }
    ∧ decode { id := 1, dlc := 6, data := [0x39, 0, 0, 2, 0, 0x3C, 0, 0] }
      ≠ some
        { serial := [header { id := 1, dlc := 6, data := [0x39, 0, 0, 2, 0, 0x3C, 0, 0] },
            .printf "ErrTicks=%ld (%.2f°)\n" [.int 512, .float ((512 : ℚ) * 360 / 51200)]],
          reads := [0, 1, 2, 3, 4] } := by
  have hticks : toSigned 32 (bigEndian [0, 0, 2, 0]) = 512 := by
    norm_num [toSigned, bigEndian]
  have hdec := decode_angleError 1 6 0 0 2 0 0x3C 0 0 (by norm_num) (by norm_num)
    (by norm_num) (by norm_num) (by norm_num)
  rw [hticks] at hdec
  have hdeg : f32 (f32 (f32 ((512 : ℤ) : ℚ) * 360) / 51200) = 7549747 / 2097152 := by
    have := f32_angle_512
    exact_mod_cast this
  rw [hdeg] at hdec
  refine ⟨hdec, ?_⟩
  rw [hdec]
  intro h
  simp only [Option.some.injEq, Trace.mk.injEq, List.cons.injEq, Out.printf.injEq,
    Arg.float.injEq, and_true, true_and] at h
  norm_num at h

/-- C9, amended: for every received frame with response code `0x39` and length at least 6,
the decoder reports the raw tick count, the signed 32-bit big-endian value of data bytes 1..4,
and the angle `ticks * 360 / 51200` computed in `float`, each operation rounded to single
precision, which lies within a relative error of `2^-22` of the exact rational; for 512 ticks
the angle reported is `7549747 / 2097152`, less than `10^-6` away from 3.6 degrees. -/
theorem decode_angle_float (rx : CanFrame) (hrx : rx.WellTyped)
    (hcode : rx.data.getD 0 0 = 0x39) (hlen : 6 ≤ rx.dlc) :
    ∃ (ticks : Int) (deg : ℚ),
      decode rx = some
        { serial := [header rx, .printf "ErrTicks=%ld (%.2f°)\n" [.int ticks, .float deg]],
          reads := [0, 1, 2, 3, 4] }
      ∧ (bigEndian (rx.bytes 1 4) < 2 ^ 31 → ticks = bigEndian (rx.bytes 1 4))
      ∧ (2 ^ 31 ≤ bigEndian (rx.bytes 1 4) → ticks = (bigEndian (rx.bytes 1 4) : Int) - 2 ^ 32)
      ∧ deg = f32 (f32 (f32 ticks * 360) / 51200)
      ∧ |deg - (ticks : ℚ) * 360 / 51200| ≤ |(ticks : ℚ) * 360 / 51200| / 2 ^ 22
      ∧ (ticks = 512 → deg = 7549747 / 2097152 ∧ |deg - 18 / 5| < 1 / 10 ^ 6) := by
  obtain ⟨a0, a1, a2, a3, a4, a5, a6, a7, hshape, -, h1, h2, h3, h4, -⟩ := hrx.shape
  rw [hshape] at hcode ⊢
  simp only [List.getD_eq_getElem?_getD, List.getElem?_cons_zero, Option.getD_some] at hcode
  subst hcode
  have hbytes : CanFrame.bytes
      { id := rx.id, dlc := rx.dlc, data := [0x39, a1, a2, a3, a4, a5, a6, a7] } 1 4
      = [a1, a2, a3, a4] := by simp [CanFrame.bytes]
  have hu : bigEndian [a1, a2, a3, a4] < 2 ^ 32 := by
    simp only [bigEndian, List.foldl_cons, List.foldl_nil]
    omega
  refine ⟨toSigned 32 (bigEndian [a1, a2, a3, a4]), _,
    decode_angleError rx.id rx.dlc a1 a2 a3 a4 a5 a6 a7 hlen h1 h2 h3 h4, ?_, ?_, rfl,
    angle_error _, ?_⟩
  · intro h
    rw [hbytes] at h ⊢
    have : bigEndian [a1, a2, a3, a4] < 2 ^ (32 - 1) := by simpa using h
    simp only [toSigned, this, if_true]
  · intro h
    rw [hbytes] at h ⊢
    have : ¬ bigEndian [a1, a2, a3, a4] < 2 ^ (32 - 1) := by simpa using h
    simp only [toSigned, this, if_false]
  · intro h
    rw [h]
    have hdeg : f32 (f32 (f32 ((512 : ℤ) : ℚ) * 360) / 51200) = 7549747 / 2097152 := by
      have := f32_angle_512
      exact_mod_cast this
    rw [hdeg]
    exact ⟨rfl, by norm_num [abs_lt]⟩

/-- Witness for C9: the `0x39` response carrying 512 ticks. -/
theorem decode_angle_float_witness :
    ∃ (ticks : Int) (deg : ℚ),
      decode { id := 1, dlc := 6, data := [0x39, 0, 0, 2, 0, 0x3C, 0, 0] } = some
        { serial := [header { id := 1, dlc := 6, data := [0x39, 0, 0, 2, 0, 0x3C, 0, 0] },
            .printf "ErrTicks=%ld (%.2f°)\n" [.int ticks, .float deg]],
          reads := [0, 1, 2, 3, 4] }
      ∧ (bigEndian [0, 0, 2, 0] < 2 ^ 31 → ticks = bigEndian [0, 0, 2, 0])
      ∧ (2 ^ 31 ≤ bigEndian [0, 0, 2, 0] → ticks = (bigEndian [0, 0, 2, 0] : Int) - 2 ^ 32)
      ∧ deg = f32 (f32 (f32 ticks * 360) / 51200)
      ∧ |deg - (ticks : ℚ) * 360 / 51200| ≤ |(ticks : ℚ) * 360 / 51200| / 2 ^ 22
      ∧ (ticks = 512 → deg = 7549747 / 2097152 ∧ |deg - 18 / 5| < 1 / 10 ^ 6) :=
  decode_angle_float { id := 1, dlc := 6, data := [0x39, 0, 0, 2, 0, 0x3C, 0, 0] }
    (by simp [CanFrame.WellTyped]) rfl (by decide)

end MKSServoCAN

namespace MKSServoCAN

/-! ## Catalog: field layout -/

theorem sentFrame_eq (bus : ICanBus) (id : Nat) (c : Command) (payload : List Nat)
    (h7 : payload.length ≤ 7) (hrun : c.run bus id = sendFrame bus id payload) :
    sentFrame bus id c = some (encoded id payload) := by
  obtain ⟨bus1, h1, h2⟩ := sendFrame_sent bus id payload h7
  simp [sentFrame, hrun, h1, h2]

theorem be16 (x : Nat) (h : x < 65536) : bigEndian [u8 (x >>> 8), u8 x] = x := by
  simp only [bigEndian, List.foldl_cons, List.foldl_nil, u8, Nat.shiftRight_eq_div_pow]
  omega

theorem be32 (x : Nat) (h : x < 2 ^ 32) :
    bigEndian [u8 (x >>> 24), u8 (x >>> 16), u8 (x >>> 8), u8 x] = x := by
  simp only [bigEndian, List.foldl_cons, List.foldl_nil, u8, Nat.shiftRight_eq_div_pow]
  omega

/-! ## Catalog: stop variants -/

/-- C20: each stop variant sends the same frame as the corresponding motion command with
all parameters zero. -/
theorem stop_eq_zero_motion (bus : ICanBus) (id : Nat) :
    speedModeStop bus id = speedMode bus id 0 0 false
    ∧ posRelativeStop bus id = posRelative bus id 0 0 0 false
    ∧ posAbsoluteStop bus id = posAbsolute bus id 0 0 0
    ∧ posAxisStop bus id = posAxis bus id 0 0 0
    ∧ sentFrame bus id .speedModeStop = sentFrame bus id (.speedMode 0 0 false)
    ∧ sentFrame bus id .posRelativeStop = sentFrame bus id (.posRelative 0 0 0 false)
    ∧ sentFrame bus id .posAbsoluteStop = sentFrame bus id (.posAbsolute 0 0 0)
    ∧ sentFrame bus id .posAxisStop = sentFrame bus id (.posAxis 0 0 0)
    ∧ sentFrame bus id .speedModeStop = some (encoded id [0xF6, 0, 0, 0]) :=
  ⟨rfl, rfl, rfl, rfl, rfl, rfl, rfl, rfl,
    sentFrame_eq bus id _ [0xF6, 0, 0, 0] (by simp) rfl⟩

end MKSServoCAN

namespace MKSServoCAN

/-! ## Catalog: the 24-bit position field -/

/-- The shift `x >> n` of a signed value is the arithmetic one: division by `2^n` rounded
towards minus infinity. -/
theorem int_shiftRight (x : Int) (n : Nat) : x >>> (n : Int) = x / 2 ^ n := by
  cases x with
  | ofNat m =>
    rw [Int.ofNat_eq_coe, Int.shiftRight_coe_nat, Nat.shiftRight_eq_div_pow]
    push_cast
    rfl
  | negSucc m =>
    rw [Int.shiftRight_negSucc, Nat.shiftRight_eq_div_pow,
      Int.negSucc_ediv _ (by positivity), Int.negSucc_eq]
    push_cast
    rfl

theorem be24s (x : Int) :
    ((bigEndian [u8s (x >>> 16), u8s (x >>> 8), u8s x] : Nat) : Int) = x % 2 ^ 24 := by
  have s16 : x >>> 16 = x / 65536 := by
    have := int_shiftRight x 16
    norm_num at this
    exact this
  have s8 : x >>> 8 = x / 256 := by
    have := int_shiftRight x 8
    norm_num at this
    exact this
  have h1 : x / 65536 = x / 256 / 256 := by omega
  have h2 : x / 16777216 = x / 256 / 256 / 256 := by omega
  simp only [bigEndian, List.foldl_cons, List.foldl_nil, u8s, s16, s8]
  push_cast
  omega

theorem toSigned24_emod (x : Int) :
    (-2 ^ 23 ≤ x → x < 2 ^ 23 → toSigned 24 (x % 2 ^ 24).toNat = x)
    ∧ ((x < -2 ^ 23 ∨ 2 ^ 23 ≤ x) → toSigned 24 (x % 2 ^ 24).toNat ≠ x) := by
  unfold toSigned
  constructor
  · intro h1 h2
    split_ifs with h <;> omega
  · intro h1
    split_ifs with h <;> omega

theorem positionField_intro (id : Nat) (c s a : Nat) (x : Int) :
    PositionField
      (encoded id [c, u8 (s >>> 8), u8 s, a, u8s (x >>> 16), u8s (x >>> 8), u8s x]) x := by
  have hb : CanFrame.bytes
      (encoded id [c, u8 (s >>> 8), u8 s, a, u8s (x >>> 16), u8s (x >>> 8), u8s x]) 4 6
      = [u8s (x >>> 16), u8s (x >>> 8), u8s x] := by
    simp [CanFrame.bytes, encoded]
  have hval := be24s x
  have hnat : bigEndian [u8s (x >>> 16), u8s (x >>> 8), u8s x] = (x % 2 ^ 24).toNat := by
    omega
  unfold PositionField
  rw [hb]
  refine ⟨hval, ?_, ?_⟩
  · rw [hnat]; exact (toSigned24_emod x).1
  · rw [hnat]; exact (toSigned24_emod x).2

/-- C17: `posAbsolute` and `posAxis` encode their signed 32-bit position as a 24-bit
big-endian two's-complement field in data bytes 4..6: the field holds `x mod 2^24`; sign
extension of it gives back `x` for `-2^23 ≤ x < 2^23` and a value different from `x` for
every other `x`. -/
theorem position_field_24bit (bus : ICanBus) (id s a : Nat) (x : Int)
    (_hx : -2 ^ 31 ≤ x ∧ x < 2 ^ 31) :
    (∃ frame, sentFrame bus id (.posAbsolute x s a) = some frame ∧ PositionField frame x)
    ∧ (∃ frame, sentFrame bus id (.posAxis x s a) = some frame ∧ PositionField frame x) :=
  ⟨⟨_, sentFrame_eq bus id _
      [0xFE, u8 (s >>> 8), u8 s, a, u8s (x >>> 16), u8s (x >>> 8), u8s x] (by simp) rfl,
      positionField_intro id 0xFE s a x⟩,
   ⟨_, sentFrame_eq bus id _
      [0xF4, u8 (s >>> 8), u8 s, a, u8s (x >>> 16), u8s (x >>> 8), u8s x] (by simp) rfl,
      positionField_intro id 0xF4 s a x⟩⟩

/-- Witness for C17: the position `-8388609 = -2^23 - 1`, one below the 24-bit range. -/
theorem position_field_24bit_witness :
    (∃ frame, sentFrame idleBus 1 (.posAbsolute (-8388609) 600 2) = some frame
      ∧ PositionField frame (-8388609))
    ∧ (∃ frame, sentFrame idleBus 1 (.posAxis (-8388609) 600 2) = some frame
      ∧ PositionField frame (-8388609)) :=
  position_field_24bit idleBus 1 600 2 (-8388609) ⟨by norm_num, by norm_num⟩

end MKSServoCAN

namespace MKSServoCAN

/-! ## Catalog: what the caller gets back -/

/-- The payload a catalog call encodes depends on the call and not on the transport. -/
theorem Command.payload_exists (c : Command) (id : Nat) :
    ∃ payload : List Nat, 1 ≤ payload.length ∧ payload.length ≤ 7
      ∧ ∀ bus : ICanBus, c.run bus id = sendFrame bus id payload := by
  cases c <;> dsimp only [Command.run] <;> exact ⟨_, by simp, by simp, fun _ => rfl⟩

theorem Command.run_sent (c : Command) (id : Nat) :
    ∃ frame : CanFrame, ∀ bus : ICanBus,
      c.run bus id = some { bus with txLog := bus.txLog ++ [(frame, 100)] }
      ∧ sentFrame bus id c = some frame
      ∧ c.returned bus id = some () := by
  obtain ⟨payload, -, h7, hrun⟩ := c.payload_exists id
  refine ⟨encoded id payload, fun bus => ?_⟩
  have h := (hrun bus).trans (sendFrame_eq bus id payload h7)
  exact ⟨h, sentFrame_eq bus id c payload h7 (hrun bus), by simp [Command.returned, h]⟩

/-- C13 as stated fails: `setCurrent(1, 500)` hands the same frame to a transport that
accepts it and to one that rejects it, and gives its caller the same (empty) result in both
cases, so nothing it returns is true exactly when the transport accepted the frame. -/
theorem transport_answer_discarded :
    (∃ frame, sentFrame idleBus 1 (.setCurrent 500) = some frame
      ∧ sentFrame rejectingBus 1 (.setCurrent 500) = some frame
      ∧ (idleBus.send frame 100).1 = true
      ∧ (rejectingBus.send frame 100).1 = false)
    ∧ Command.returned idleBus 1 (.setCurrent 500)
        = Command.returned rejectingBus 1 (.setCurrent 500)
    ∧ ¬ ∃ ok : Option Unit → Bool,
        ok (Command.returned idleBus 1 (.setCurrent 500)) = true
        ∧ ok (Command.returned rejectingBus 1 (.setCurrent 500)) = false := by
  obtain ⟨frame, h⟩ := Command.run_sent (.setCurrent 500) 1
  have h1 := h idleBus
  have h2 := h rejectingBus
  refine ⟨⟨frame, h1.2.1, h2.2.1, rfl, rfl⟩, h1.2.2.trans h2.2.2.symm, ?_⟩
  rintro ⟨ok, ha, hb⟩
  rw [h1.2.2] at ha
  rw [h2.2.2, ha] at hb
  exact Bool.noConfusion hb

/-! ## Catalog: the send timeout -/

/-- C14 as stated fails: no command submits its frame with two different timeouts, whatever
the transport and the identifier. -/
theorem send_timeout_never_differs :
    ¬ ∃ (c : Command) (bus bus' bus1 bus1' : ICanBus) (id id' : Nat),
        c.run bus id = some bus1 ∧ c.run bus' id' = some bus1'
        ∧ (framesSent bus bus1).map Prod.snd ≠ (framesSent bus' bus1').map Prod.snd := by
  rintro ⟨c, bus, bus', bus1, bus1', id, id', h1, h2, hne⟩
  obtain ⟨f, hf⟩ := Command.run_sent c id
  obtain ⟨f', hf'⟩ := Command.run_sent c id'
  rw [(hf bus).1] at h1
  rw [(hf' bus').1] at h2
  cases h1
  cases h2
  simp [framesSent] at hne

/-- C14, amended: the send timeout a catalog command passes to the transport is the constant
100 (milliseconds) written in `sendFrame`: every command submits its one frame with timeout
100, for every transport and identifier. -/
theorem send_timeout_fixed (c : Command) (bus : ICanBus) (id : Nat) :
    ∃ bus1, c.run bus id = some bus1 ∧ (framesSent bus bus1).map Prod.snd = [100] := by
  obtain ⟨f, hf⟩ := Command.run_sent c id
  exact ⟨_, (hf bus).1, by simp [framesSent]⟩

end MKSServoCAN

namespace MKSServoCAN

/-! ## The 16- and 32-bit responses -/

theorem be16_or (a b : Nat) (ha : a < 256) (hb : b < 256) :
    ((a <<< 8) ||| b) % 65536 = bigEndian [a, b] := by
  have h1 : a <<< 8 = 2 ^ 8 * a := by rw [Nat.shiftLeft_eq, Nat.mul_comm]
  rw [h1, ← Nat.mul_add_lt_is_or (by simpa using hb) a]
  simp only [bigEndian, List.foldl_cons, List.foldl_nil]
  omega

theorem decode_encCarry (id dlc a1 a2 a3 a4 a5 a6 a7 : Nat) (hlen : 8 ≤ dlc)
    (h1 : a1 < 256) (h2 : a2 < 256) (h3 : a3 < 256) (h4 : a4 < 256) (h5 : a5 < 256)
    (h6 : a6 < 256) :
    decode { id := id, dlc := dlc, data := [0x30, a1, a2, a3, a4, a5, a6, a7] }
      = some
        { serial :=
            [header { id := id, dlc := dlc, data := [0x30, a1, a2, a3, a4, a5, a6, a7] },
              .printf "EncCarry=%ld, value=%u\n"
                [.int (toSigned 32 (bigEndian [a1, a2, a3, a4])), .uint (bigEndian [a5, a6])]],
          reads := [0, 1, 2, 3, 4, 5, 6] } := by
  simp [decode, pollResponses.body, header, bind, Serial.printf, CanFrame.read, hlen,
    readU32_run, h1, h2, h3, h4, be16_or a5 a6 h5 h6]

theorem decode_speed (id dlc a1 a2 a3 a4 a5 a6 a7 : Nat) (hlen : 4 ≤ dlc)
    (h1 : a1 < 256) (h2 : a2 < 256) :
    decode { id := id, dlc := dlc, data := [0x32, a1, a2, a3, a4, a5, a6, a7] }
      = some
        { serial :=
            [header { id := id, dlc := dlc, data := [0x32, a1, a2, a3, a4, a5, a6, a7] },
              .printf "Speed=%d RPM\n" [.int (toSigned 16 (bigEndian [a1, a2]))]],
          reads := [0, 1, 2] } := by
  simp [decode, pollResponses.body, header, bind, Serial.printf, CanFrame.read, hlen,
    be16_or a1 a2 h1 h2]

theorem decode_pulses (id dlc a1 a2 a3 a4 a5 a6 a7 : Nat) (hlen : 6 ≤ dlc)
    (h1 : a1 < 256) (h2 : a2 < 256) (h3 : a3 < 256) (h4 : a4 < 256) :
    decode { id := id, dlc := dlc, data := [0x33, a1, a2, a3, a4, a5, a6, a7] }
      = some
        { serial :=
            [header { id := id, dlc := dlc, data := [0x33, a1, a2, a3, a4, a5, a6, a7] },
              .printf "Pulses=%ld\n" [.int (toSigned 32 (bigEndian [a1, a2, a3, a4]))]],
          reads := [0, 1, 2, 3, 4] } := by
  simp [decode, pollResponses.body, header, bind, Serial.printf, CanFrame.read, hlen,
    readU32_run, h1, h2, h3, h4]

/-- C16: the 16- and 32-bit fields are decoded big-endian with the signedness of their
layout: code `0x30` (length ≥ 8) reports the carry as the two's-complement 32-bit value of
data bytes 1..4 and the encoder value as the unsigned 16-bit value of bytes 5..6; code `0x32`
(length ≥ 4) reports the speed as the two's-complement 16-bit value of bytes 1..2, so that
`FF FF` gives `-1`; code `0x33` (length ≥ 6) reports the pulse count as the two's-complement
32-bit value of bytes 1..4. -/
theorem decode_fixed_width_fields (rx : CanFrame) (hrx : rx.WellTyped) :
    (rx.data.getD 0 0 = 0x30 → 8 ≤ rx.dlc →
      decode rx = some
        { serial := [header rx,
            .printf "EncCarry=%ld, value=%u\n"
              [.int (toSigned 32 (bigEndian (rx.bytes 1 4))), .uint (bigEndian (rx.bytes 5 6))]],
          reads := [0, 1, 2, 3, 4, 5, 6] })
    ∧ (rx.data.getD 0 0 = 0x32 → 4 ≤ rx.dlc →
      decode rx = some
        { serial := [header rx,
            .printf "Speed=%d RPM\n" [.int (toSigned 16 (bigEndian (rx.bytes 1 2)))]],
          reads := [0, 1, 2] })
    ∧ (rx.data.getD 0 0 = 0x33 → 6 ≤ rx.dlc →
      decode rx = some
        { serial := [header rx,
            .printf "Pulses=%ld\n" [.int (toSigned 32 (bigEndian (rx.bytes 1 4)))]],
          reads := [0, 1, 2, 3, 4] })
    ∧ toSigned 16 (bigEndian [0xFF, 0xFF]) = -1
    ∧ (∀ w u : Nat, u < 2 ^ (w - 1) → toSigned w u = u)
    ∧ (∀ w u : Nat, 2 ^ (w - 1) ≤ u → toSigned w u = (u : Int) - 2 ^ w) := by
  obtain ⟨a0, a1, a2, a3, a4, a5, a6, a7, hshape, -, h1, h2, h3, h4, h5, h6, -⟩ := hrx.shape
  have b14 : rx.bytes 1 4 = [a1, a2, a3, a4] := by rw [hshape]; simp [CanFrame.bytes]
  have b56 : rx.bytes 5 6 = [a5, a6] := by rw [hshape]; simp [CanFrame.bytes]
  have b12 : rx.bytes 1 2 = [a1, a2] := by rw [hshape]; simp [CanFrame.bytes]
  have hcode : rx.data.getD 0 0 = a0 := by rw [hshape]; rfl
  rw [b14, b56, b12, hcode]
  refine ⟨?_, ?_, ?_, ?_, ?_, ?_⟩
  · intro hc hlen
    subst hc
    rw [hshape]
    exact decode_encCarry rx.id rx.dlc a1 a2 a3 a4 a5 a6 a7 hlen h1 h2 h3 h4 h5 h6
  · intro hc hlen
    subst hc
    rw [hshape]
    exact decode_speed rx.id rx.dlc a1 a2 a3 a4 a5 a6 a7 hlen h1 h2
  · intro hc hlen
    subst hc
    rw [hshape]
    exact decode_pulses rx.id rx.dlc a1 a2 a3 a4 a5 a6 a7 hlen h1 h2 h3 h4
  · norm_num [toSigned, bigEndian]
  · intro w u h
    simp [toSigned, h]
  · intro w u h
    simp [toSigned, Nat.not_lt.mpr h]

/-- Witness for C16: the `0x32` response carrying `FF FF`, a speed of `-1`. -/
theorem decode_fixed_width_fields_witness :
    decode { id := 1, dlc := 4, data := [0x32, 0xFF, 0xFF, 0x31, 0, 0, 0, 0] } = some
      { serial := [header { id := 1, dlc := 4, data := [0x32, 0xFF, 0xFF, 0x31, 0, 0, 0, 0] },
          .printf "Speed=%d RPM\n"
            [.int (toSigned 16 (bigEndian
              (CanFrame.bytes { id := 1, dlc := 4, data := [0x32, 0xFF, 0xFF, 0x31, 0, 0, 0, 0] }
                1 2)))]],
        reads := [0, 1, 2] } :=
  (decode_fixed_width_fields { id := 1, dlc := 4, data := [0x32, 0xFF, 0xFF, 0x31, 0, 0, 0, 0] }
    (by simp [CanFrame.WellTyped])).2.1 rfl (by decide)

end MKSServoCAN

namespace MKSServoCAN

/-! ## Command codes and response codes -/

/-- A frame whose code is a `case` label never reaches the `default` branch: whatever its
length, decoding completes and prints no raw dump. -/
theorem decode_recognized (id dlc a0 a1 a2 a3 a4 a5 a6 a7 : Nat)
    (hcode : a0 ∈ caseLabels) (hlen : dlc ≤ 8) :
    ∃ tr, decode { id := id, dlc := dlc, data := [a0, a1, a2, a3, a4, a5, a6, a7] } = some tr
      ∧ Out.print "RAW:" ∉ tr.serial := by
  by_cases hd : dlc < minLength a0
  · exact ⟨_, decode_short id dlc a0 a1 a2 a3 a4 a5 a6 a7 hcode hd, by simp [header]⟩
  · simp only [caseLabels, List.mem_cons, List.mem_singleton, List.not_mem_nil, or_false]
      at hcode
    rcases hcode with rfl | rfl | rfl | rfl | rfl | rfl | rfl | rfl | rfl | rfl | rfl | rfl | rfl | rfl | rfl | rfl | rfl | rfl | rfl | rfl | rfl | rfl | rfl | rfl | rfl | rfl | rfl | rfl | rfl | rfl | rfl | rfl | rfl | rfl | rfl | rfl | rfl | rfl | rfl | rfl | rfl | rfl | rfl | rfl <;>
      simp [minLength] at hd
    all_goals first
      | (simp [decode, pollResponses.body, header, bind, pure, Serial.printf,
          CanFrame.read, hd, status_run, flag, readU32, readI48, readI48.step, List.foldlM,
          List.range']; done)
      | skip
    obtain ⟨n, rfl⟩ : ∃ n, dlc = 2 + n := ⟨dlc - 2, by omega⟩
    refine ⟨_, decode_sysParam id n a1 a2 a3 a4 a5 a6 a7 hlen, ?_⟩
    simp only [List.mem_append, List.mem_cons, List.mem_singleton, List.mem_map, header,
      List.not_mem_nil, not_or, not_exists, not_and]
    simp

theorem Command.code_mem_caseLabels (c : Command) (id : Nat) :
    ∃ payload : List Nat, 1 ≤ payload.length ∧ payload.length ≤ 7
      ∧ payload.headD 0 ∈ caseLabels
      ∧ ∀ bus : ICanBus, c.run bus id = sendFrame bus id payload := by
  cases c <;> dsimp only [Command.run] <;>
    exact ⟨_, by simp, by simp, by simp [caseLabels], fun _ => rfl⟩

/-- C18: every command code the catalog can send is a response code the decoder recognizes:
the first data byte of every catalog frame is a `case` label of the decoder's `switch`, and a
frame of at most 8 bytes that starts with that byte is decoded without a raw dump. -/
theorem command_codes_recognized (c : Command) (bus : ICanBus) (id : Nat) :
    ∃ frame, sentFrame bus id c = some frame
      ∧ frame.data.getD 0 0 ∈ caseLabels
      ∧ ∀ rx : CanFrame, rx.WellTyped → rx.dlc ≤ 8 →
          rx.data.getD 0 0 = frame.data.getD 0 0 →
          ∃ tr, decode rx = some tr ∧ Out.print "RAW:" ∉ tr.serial := by
  obtain ⟨payload, h1, h7, hmem, hrun⟩ := c.code_mem_caseLabels id
  have hhead : (encoded id payload).data.getD 0 0 = payload.headD 0 := by
    cases payload with
    | nil => simp at h1
    | cons b l => simp [encoded]
  refine ⟨_, sentFrame_eq bus id c payload h7 (hrun bus), hhead ▸ hmem, ?_⟩
  intro rx hrx hlen hc
  obtain ⟨a0, a1, a2, a3, a4, a5, a6, a7, hshape, -⟩ := hrx.shape
  rw [hhead] at hc
  rw [hshape] at hc ⊢
  simp only [List.getD_eq_getElem?_getD, List.getElem?_cons_zero, Option.getD_some] at hc
  exact decode_recognized rx.id rx.dlc a0 a1 a2 a3 a4 a5 a6 a7 (hc ▸ hmem) hlen

/-- Witness for C18: a three-byte response echoing the code `0x83` of `setCurrent`. -/
theorem command_codes_recognized_witness :
    ∃ frame, sentFrame idleBus 1 (.setCurrent 500) = some frame
      ∧ frame.data.getD 0 0 ∈ caseLabels
      ∧ ∃ tr, decode { id := 1, dlc := 3, data := [0x83, 1, 0x85, 0, 0, 0, 0, 0] } = some tr
          ∧ Out.print "RAW:" ∉ tr.serial := by
  obtain ⟨frame, h1, h2, h3⟩ := command_codes_recognized (.setCurrent 500) idleBus 1
  have hf : frame = encoded 1 [0x83, u8 (500 >>> 8), u8 500] := by
    have := sentFrame_eq idleBus 1 (.setCurrent 500) [0x83, u8 (500 >>> 8), u8 500]
      (by simp) rfl
    rw [this] at h1
    exact (Option.some.inj h1).symm
  refine ⟨frame, h1, h2, h3 { id := 1, dlc := 3, data := [0x83, 1, 0x85, 0, 0, 0, 0, 0] }
    (by simp [CanFrame.WellTyped]) (by decide) ?_⟩
  rw [hf]
  rfl

end MKSServoCAN

namespace MKSServoCAN

/-! ## What the decoded fields depend on -/

/-- The decoded fields of a recognized response other than `0x00` depend only on the code,
the length and the data bytes at indices up to `maxRead code`: not on the identifier and
not on any other byte. -/
theorem fields_congr (id id' dlc c a1 a2 a3 a4 a5 a6 a7 b1 b2 b3 b4 b5 b6 b7 : Nat)
    (hcode : c ∈ caseLabels) (h0 : c ≠ 0x00) (e1 : a1 = b1)
    (e2 : 2 ≤ maxRead c → a2 = b2)
    (e4 : 4 ≤ maxRead c → a3 = b3 ∧ a4 = b4)
    (e6 : 6 ≤ maxRead c → a5 = b5 ∧ a6 = b6) :
    decodedFields { id := id, dlc := dlc, data := [c, a1, a2, a3, a4, a5, a6, a7] }
      = decodedFields { id := id', dlc := dlc, data := [c, b1, b2, b3, b4, b5, b6, b7] } := by
  subst e1
  simp only [caseLabels, List.mem_cons, List.mem_singleton, List.not_mem_nil, or_false]
    at hcode
  by_cases hd : minLength c ≤ dlc
  · rcases hcode with rfl | rfl | rfl | rfl | rfl | rfl | rfl | rfl | rfl | rfl | rfl | rfl | rfl | rfl | rfl | rfl | rfl | rfl | rfl | rfl | rfl | rfl | rfl | rfl | rfl | rfl | rfl | rfl | rfl | rfl | rfl | rfl | rfl | rfl | rfl | rfl | rfl | rfl | rfl | rfl | rfl | rfl | rfl | rfl <;>
      simp [minLength] at hd <;>
      simp [maxRead] at e2 e4 e6 <;>
      first
        | exact absurd rfl h0
        | simp [decodedFields, decode, pollResponses.body, header, bind, pure, Serial.printf,
            CanFrame.read, hd, status_run, flag, readU32, readI48, readI48.step, List.foldlM,
            List.range', e2, e4, e6]
  · have hd' : dlc < minLength c := Nat.not_le.mp hd
    rw [decodedFields, decodedFields,
      decode_short id dlc c a1 a2 a3 a4 a5 a6 a7 (by simp [caseLabels, hcode]) hd',
      decode_short id' dlc c a1 b2 b3 b4 b5 b6 b7 (by simp [caseLabels, hcode]) hd']
    rfl

/-- C19 as stated fails on the shortest frames: the two-byte status frame `F1 01` has a
recognized code other than `0x00` and a length (2) that exceeds by one the highest index its
branch reads (1), yet replacing its last data byte by `02` changes the decoded field from
`"Stop"` to `"SpeedUp"`: that last byte is the status byte itself. -/
theorem last_byte_of_two_byte_frame_is_decoded :
    (0xF1 : Nat) ∈ caseLabels ∧ (0xF1 : Nat) ≠ 0x00 ∧ maxRead 0xF1 + 1 ≤ 2
    ∧ decodedFields { id := 1, dlc := 2, data := [0xF1, 1, 0, 0, 0, 0, 0, 0] }
        = some [.printf "Status=%s\n" [.str "Stop"]]
    ∧ decodedFields { id := 1, dlc := 2, data := [0xF1, 1, 0, 0, 0, 0, 0, 0].set (2 - 1) 2 }
        = some [.printf "Status=%s\n" [.str "SpeedUp"]]
    ∧ decodedFields { id := 1, dlc := 2, data := [0xF1, 1, 0, 0, 0, 0, 0, 0].set (2 - 1) 2 }
        ≠ decodedFields { id := 1, dlc := 2, data := [0xF1, 1, 0, 0, 0, 0, 0, 0] } := by
  have h1 : decodedFields { id := 1, dlc := 2, data := [0xF1, 1, 0, 0, 0, 0, 0, 0] }
      = some [.printf "Status=%s\n" [.str "Stop"]] := by
    simp [decodedFields, decode, pollResponses.body, bind, Serial.printf, CanFrame.read,
      status_run]
  have h2 : decodedFields
      { id := 1, dlc := 2, data := [0xF1, 1, 0, 0, 0, 0, 0, 0].set (2 - 1) 2 }
      = some [.printf "Status=%s\n" [.str "SpeedUp"]] := by
    simp [decodedFields, decode, pollResponses.body, bind, Serial.printf, CanFrame.read,
      status_run]
  refine ⟨by decide, by decide, by decide, h1, h2, ?_⟩
  rw [h1, h2]
  decide

/-- C19, amended: the decoder never validates the checksum or the identifier of a received
frame: for every frame of at most 8 bytes whose code is recognized, is not `0x00`, and whose
length exceeds by at least two the highest data index that code's branch reads (so that the
last data byte lies beyond every byte the branch reads), the decoded fields are unchanged
when the identifier and the last data byte are replaced by arbitrary values. -/
theorem fields_ignore_id_and_checksum (rx : CanFrame) (hrx : rx.WellTyped)
    (hcode : rx.data.getD 0 0 ∈ caseLabels) (h0 : rx.data.getD 0 0 ≠ 0x00)
    (hlen : maxRead (rx.data.getD 0 0) + 2 ≤ rx.dlc) (h8 : rx.dlc ≤ 8) (id' x : Nat) :
    decodedFields { id := id', dlc := rx.dlc, data := rx.data.set (rx.dlc - 1) x }
      = decodedFields rx
    ∧ ∃ fields, decodedFields rx = some fields := by
  obtain ⟨a0, a1, a2, a3, a4, a5, a6, a7, hshape, -⟩ := hrx.shape
  obtain ⟨id, dlc, data⟩ := rx
  simp only [CanFrame.mk.injEq, true_and] at hshape
  subst hshape
  simp only [List.getD_eq_getElem?_getD, List.getElem?_cons_zero, Option.getD_some]
    at hcode h0 hlen ⊢
  simp only at h8
  constructor
  · have hm : 1 ≤ maxRead a0 := by
      unfold maxRead
      split_ifs <;> norm_num
    obtain ⟨j, hj⟩ : ∃ j, dlc - 1 = j := ⟨_, rfl⟩
    rw [hj]
    have hj2 : 2 ≤ j := by omega
    have hj7 : j ≤ 7 := by omega
    interval_cases j <;>
      exact (fields_congr id id' dlc a0 _ _ _ _ _ _ _ _ _ _ _ _ _ _ hcode h0 rfl
        (fun h => by first | rfl | omega)
        (fun h => by first | exact ⟨rfl, rfl⟩ | omega)
        (fun h => by first | exact ⟨rfl, rfl⟩ | omega)).symm
  · obtain ⟨tr, htr, -⟩ := decode_recognized id dlc a0 a1 a2 a3 a4 a5 a6 a7 hcode h8
    exact ⟨tr.serial.drop 1, by simp [decodedFields, htr]⟩

/-- Witness for C19: the three-byte status frame `F1 01 F3` of identifier 1, with identifier
and last byte replaced. -/
theorem fields_ignore_id_and_checksum_witness :
    decodedFields { id := 0x7FF, dlc := 3, data := [0xF1, 1, 0xF3, 0, 0, 0, 0, 0].set (3 - 1) 0 }
      = decodedFields { id := 1, dlc := 3, data := [0xF1, 1, 0xF3, 0, 0, 0, 0, 0] }
    ∧ ∃ fields,
        decodedFields { id := 1, dlc := 3, data := [0xF1, 1, 0xF3, 0, 0, 0, 0, 0] }
          = some fields :=
  fields_ignore_id_and_checksum { id := 1, dlc := 3, data := [0xF1, 1, 0xF3, 0, 0, 0, 0, 0] }
    (by simp [CanFrame.WellTyped]) (by decide) (by decide) (by decide) (by decide) 0x7FF 0

/-! ## Frames of length zero -/

/-- C12 fails on the code: a frame of length 0 is dispatched on whatever `rx.data[0]` holds.
The same zero-length frame, delivered into an `rx` that last held a `0x50` frame and into one
that last held a `0x30` frame, gives two frames with the same identifier, the same length 0
and the same (empty) meaningful part, and the decoder prints a different header for each,
followed by a raw dump in one case and by nothing in the other. -/
theorem zero_length_frame_dispatch :
    (deliver { id := 1, dlc := 3, data := [0x50, 1, 0x52, 0, 0, 0, 0, 0] }
        { id := 7, dlc := 0, data := [0, 0, 0, 0, 0, 0, 0, 0] }).id
      = (deliver { id := 1, dlc := 8, data := [0x30, 0, 0, 0, 1, 0, 5, 0x37] }
        { id := 7, dlc := 0, data := [0, 0, 0, 0, 0, 0, 0, 0] }).id
    ∧ (deliver { id := 1, dlc := 3, data := [0x50, 1, 0x52, 0, 0, 0, 0, 0] }
        { id := 7, dlc := 0, data := [0, 0, 0, 0, 0, 0, 0, 0] }).dlc = 0
    ∧ (deliver { id := 1, dlc := 8, data := [0x30, 0, 0, 0, 1, 0, 5, 0x37] }
        { id := 7, dlc := 0, data := [0, 0, 0, 0, 0, 0, 0, 0] }).dlc = 0
    ∧ decode (deliver { id := 1, dlc := 3, data := [0x50, 1, 0x52, 0, 0, 0, 0, 0] }
        { id := 7, dlc := 0, data := [0, 0, 0, 0, 0, 0, 0, 0] })
      = some { serial := [.printf "RX -> ID=0x%03X  Code=0x%02X: " [.uint 7, .uint 0x50],
                 .print "RAW:", .println],
               reads := [0] }
    ∧ decode (deliver { id := 1, dlc := 8, data := [0x30, 0, 0, 0, 1, 0, 5, 0x37] }
        { id := 7, dlc := 0, data := [0, 0, 0, 0, 0, 0, 0, 0] })
      = some { serial := [.printf "RX -> ID=0x%03X  Code=0x%02X: " [.uint 7, .uint 0x30]],
               reads := [0] } := by
  refine ⟨rfl, rfl, rfl, ?_, ?_⟩
  · simp [deliver, decode, pollResponses.body, bind, Serial.printf, Serial.print,
      Serial.println, CanFrame.read, dumpBytes, pure]
  · simp [deliver, decode, pollResponses.body, bind, Serial.printf, CanFrame.read, pure]

end MKSServoCAN

namespace MKSServoCAN

/-! ## Decoding extends the trace -/

theorem Local.pure {α : Type} (a : α) : Local (pure a : M α) := by
  intro t
  simp [Pure.pure]

theorem Local.bind {α β : Type} {m : M α} {f : α → M β} (hm : Local m)
    (hf : ∀ a, Local (f a)) : Local (m >>= f) := by
  intro t
  have h1 := hm t
  simp only [Bind.bind] at h1 ⊢
  rw [h1]
  cases h0 : m { serial := [], reads := [] } with
  | none => simp
  | some p =>
    obtain ⟨a, tr⟩ := p
    have h2 := hf a { serial := t.serial ++ tr.serial, reads := t.reads ++ tr.reads }
    have h3 := hf a tr
    simp only [Option.map_some'] at h2 h3 ⊢
    rw [h2, h3]
    cases f a { serial := [], reads := [] } with
    | none => simp
    | some q => simp [List.append_assoc]

theorem Local.ite {α : Type} {c : Prop} [Decidable c] {m1 m2 : M α} (h1 : Local m1)
    (h2 : Local m2) : Local (if c then m1 else m2) := by
  split_ifs
  · exact h1
  · exact h2

theorem Local.printf (fmt : String) (args : List Arg) : Local (Serial.printf fmt args) := by
  intro t; simp [Serial.printf]

theorem Local.print (s : String) : Local (Serial.print s) := by
  intro t; simp [Serial.print]

theorem Local.printHex (v : Nat) : Local (Serial.printHex v) := by
  intro t; simp [Serial.printHex]

theorem Local.println : Local Serial.println := by
  intro t; simp [Serial.println]

theorem Local.read (rx : CanFrame) (i : Nat) : Local (rx.read i) := by
  intro t
  simp only [CanFrame.read]
  cases rx.data[i]? <;> simp

theorem Local.index (table : List String) (i : Nat) : Local (index table i) := by
  intro t
  simp only [MKSServoCAN.index]
  cases table[i]? <;> simp

theorem Local.forM (f : Nat → M Unit) (hf : ∀ i, Local (f i)) (l : List Nat) :
    Local (l.forM f) := by
  induction l with
  | nil => exact Local.pure _
  | cons a l ih =>
    rw [List.forM]
    exact Local.bind (hf a) (fun _ => ih)

theorem Local.foldlM (f : Nat → Nat → M Nat) (hf : ∀ v i, Local (f v i)) (l : List Nat)
    (v : Nat) : Local (l.foldlM f v) := by
  induction l generalizing v with
  | nil => exact Local.pure _
  | cons a l ih =>
    rw [List.foldlM]
    exact Local.bind (hf v a) (fun _ => ih _)

theorem Local.dumpBytes (rx : CanFrame) (lo hi : Nat) : Local (dumpBytes rx lo hi) :=
  Local.forM _ (fun _ => Local.bind (Local.read _ _) (fun _ => Local.printf _ _)) _

theorem Local.readU32 (rx : CanFrame) : Local (readU32 rx) :=
  Local.bind (Local.read _ _) fun _ => Local.bind (Local.read _ _) fun _ =>
    Local.bind (Local.read _ _) fun _ => Local.bind (Local.read _ _) fun _ => Local.pure _

theorem Local.readI48 (rx : CanFrame) : Local (readI48 rx) :=
  Local.bind (Local.foldlM _ (fun _ _ => Local.bind (Local.read _ _) fun _ => Local.pure _) _ _)
    fun _ => Local.pure _

theorem Local.flag (rx : CanFrame) (yes no : String) : Local (flag rx yes no) :=
  Local.bind (Local.read _ _) fun _ => Local.pure _

theorem Local.status (rx : CanFrame) (table : List String) (N : Nat) :
    Local (status rx table N) :=
  Local.bind (Local.read _ _) fun _ =>
    Local.ite (Local.bind (Local.index _ _) fun _ => Local.pure _) (Local.pure _)

theorem Local.body (rx : CanFrame) : Local (pollResponses.body rx) := by
  unfold pollResponses.body
  repeat' first
    | exact Local.pure _
    | exact Local.printf _ _
    | exact Local.print _
    | exact Local.println
    | exact Local.printHex _
    | exact Local.read _ _
    | exact Local.readU32 _
    | exact Local.readI48 _
    | exact Local.flag _ _ _
    | exact Local.status _ _ _
    | exact Local.dumpBytes _ _ _
    | apply Local.ite
    | apply Local.bind
    | intro _

theorem body_run (rx : CanFrame) (tr : Trace) (h : decode rx = some tr) (t : Trace) :
    pollResponses.body rx t
      = some ((), { serial := t.serial ++ tr.serial, reads := t.reads ++ tr.reads }) := by
  rw [Local.body rx t]
  unfold decode at h
  cases hb : pollResponses.body rx { serial := [], reads := [] } with
  | none => simp [hb] at h
  | some p =>
    simp only [hb, Option.map_some', Option.some.injEq] at h
    simp [← h]

/-! ## Every frame is decoded -/

/-- A frame whose code is no `case` label prints the raw dump of its first `dlc` bytes. -/
theorem decode_default (rx : CanFrame) (hrx : rx.WellTyped) (hlen : rx.dlc ≤ 8)
    (hcode : rx.data.getD 0 0 ∉ caseLabels) :
    decode rx = some
      { serial := [header rx, .print "RAW:"]
          ++ (rx.data.take rx.dlc).map (fun b => Out.printf " %02X" [.uint b])
          ++ [.println],
        reads := 0 :: List.range rx.dlc } := by
  obtain ⟨a0, a1, a2, a3, a4, a5, a6, a7, hshape, -⟩ := hrx.shape
  have hdata : rx.dlc ≤ rx.data.length := by rw [hshape]; simpa using hlen
  have h0 : rx.data[0]? = some a0 := by rw [hshape]; rfl
  have hget : rx.data.getD 0 0 = a0 := by rw [hshape]; rfl
  rw [hget] at hcode
  simp only [caseLabels, List.mem_cons, List.mem_singleton, List.not_mem_nil, or_false,
    not_or] at hcode
  simp [decode, pollResponses.body, header, bind, Serial.printf, Serial.print, Serial.println,
    CanFrame.read, h0, hget, hcode, dumpBytes_all rx rx.dlc hdata]

theorem decode_total (rx : CanFrame) (hrx : rx.WellTyped) (hlen : rx.dlc ≤ 8) :
    ∃ tr, decode rx = some tr := by
  by_cases hcode : rx.data.getD 0 0 ∈ caseLabels
  · obtain ⟨a0, a1, a2, a3, a4, a5, a6, a7, hshape, -⟩ := hrx.shape
    rw [hshape] at hcode ⊢
    obtain ⟨tr, h, -⟩ := decode_recognized rx.id rx.dlc a0 a1 a2 a3 a4 a5 a6 a7
      (by simpa using hcode) hlen
    exact ⟨tr, h⟩
  · exact ⟨_, decode_default rx hrx hlen hcode⟩

/-! ## The polling loop -/

theorem deliver_wellTyped (rx f : CanFrame) (hrx : rx.WellTyped) (hf : f.WellTyped)
    (hlen : f.dlc ≤ 8) : (deliver rx f).WellTyped ∧ (deliver rx f).dlc ≤ 8 := by
  obtain ⟨-, -, hrl, hrb⟩ := hrx
  obtain ⟨hfi, hfd, hfl, hfb⟩ := hf
  refine ⟨⟨hfi, hfd, ?_, ?_⟩, hlen⟩
  · simp only [deliver, List.length_append, List.length_take, List.length_drop, hfl, hrl]
    omega
  · intro b hb
    simp only [deliver, List.mem_append] at hb
    rcases hb with hb | hb
    · exact hfb b (List.mem_of_mem_take hb)
    · exact hrb b (List.mem_of_mem_drop hb)

theorem receive_nil (bus : ICanBus) (rx : CanFrame) (timeoutMs : Nat)
    (hq : bus.rxQueue = []) :
    bus.receive rx timeoutMs
      = some (false, rx, { bus with rxLog := bus.rxLog ++ [timeoutMs] }) := by
  simp [ICanBus.receive, hq]

theorem receive_cons (bus : ICanBus) (rx f : CanFrame) (rest : List CanFrame)
    (timeoutMs : Nat) (hq : bus.rxQueue = f :: rest) (hrx : rx.WellTyped) (hf : f.WellTyped)
    (hlen : f.dlc ≤ 8) :
    bus.receive rx timeoutMs
      = some (true, deliver rx f,
          { bus with rxQueue := rest, rxLog := bus.rxLog ++ [timeoutMs] }) := by
  have h1 : f.dlc ≤ rx.data.length := by rw [hrx.2.2.1]; exact hlen
  have h2 : f.dlc ≤ f.data.length := by rw [hf.2.2.1]; exact hlen
  simp [ICanBus.receive, hq, memcpy, h1, h2, deliver]

theorem loop_drains (timeoutMs : Nat) (q : List CanFrame) :
    ∀ (bus : ICanBus) (rx : CanFrame) (t : Trace), bus.rxQueue = q →
      (∀ f ∈ q, f.WellTyped ∧ f.dlc ≤ 8) → rx.WellTyped →
      ∃ traces : List Trace,
        (deliveries rx q).map decode = traces.map some
        ∧ pollResponses.loop timeoutMs bus rx t = some
            ({ bus with
                rxQueue := [],
                rxLog := bus.rxLog ++ List.replicate (q.length + 1) timeoutMs },
             { serial := t.serial ++ (traces.map (·.serial)).flatten,
               reads := t.reads ++ (traces.map (·.reads)).flatten }) := by
  induction q with
  | nil =>
    intro bus rx t hq _ _
    refine ⟨[], rfl, ?_⟩
    unfold pollResponses.loop
    have hr := receive_nil bus rx timeoutMs hq
    split
    · rename_i h; rw [hr] at h; simp at h
    · rename_i h
      rw [hr] at h
      simp only [Option.some.injEq, Prod.mk.injEq, true_and] at h
      obtain ⟨-, rfl⟩ := h
      simp [hq]
    · rename_i h; rw [hr] at h; simp at h
  | cons f rest ih =>
    intro bus rx t hq hall hrx
    have hf := hall f (List.mem_cons_self _ _)
    have hr := receive_cons bus rx f rest timeoutMs hq hrx hf.1 hf.2
    obtain ⟨hdw, hd8⟩ := deliver_wellTyped rx f hrx hf.1 hf.2
    obtain ⟨tr, htr⟩ := decode_total (deliver rx f) hdw hd8
    obtain ⟨traces, hdec, hloop⟩ :=
      ih { bus with rxQueue := rest, rxLog := bus.rxLog ++ [timeoutMs] } (deliver rx f)
        { serial := t.serial ++ tr.serial, reads := t.reads ++ tr.reads } rfl
        (fun g hg => hall g (List.mem_cons_of_mem _ hg)) hdw
    refine ⟨tr :: traces, by simp [deliveries, htr, hdec], ?_⟩
    unfold pollResponses.loop
    split
    · rename_i h; rw [hr] at h; simp at h
    · rename_i h; rw [hr] at h; simp at h
    · rename_i h
      rw [hr] at h
      simp only [Option.some.injEq, Prod.mk.injEq, true_and] at h
      obtain ⟨rfl, rfl⟩ := h
      rw [body_run _ tr htr]
      simp only
      rw [hloop]
      simp [List.replicate_succ, List.append_assoc]

theorem deliveries_length (q : List CanFrame) :
    ∀ rx : CanFrame, (deliveries rx q).length = q.length := by
  induction q with
  | nil => intro rx; rfl
  | cons f rest ih => intro rx; simp [deliveries, ih]

/-- C15: with the transport a finite queue of pending frames, `pollResponses` decodes exactly
the frames the transport delivers before its first unsuccessful receive, each one once and
in delivery order, passes the caller's `timeoutMs` unchanged to every receive call, and
stops at the first unsuccessful receive; with an empty queue it decodes nothing. -/
theorem pollResponses_drains_queue (bus : ICanBus) (timeoutMs : Nat) (rx0 : CanFrame)
    (t : Trace) (hq : ∀ f ∈ bus.rxQueue, f.WellTyped ∧ f.dlc ≤ 8) (hrx0 : rx0.WellTyped) :
    ∃ traces : List Trace,
      (deliveries rx0 bus.rxQueue).map decode = traces.map some
      ∧ traces.length = bus.rxQueue.length
      ∧ pollResponses bus timeoutMs rx0 t = some
          ({ bus with
              rxQueue := [],
              rxLog := bus.rxLog ++ List.replicate (bus.rxQueue.length + 1) timeoutMs },
           { serial := t.serial ++ (traces.map (·.serial)).flatten,
             reads := t.reads ++ (traces.map (·.reads)).flatten })
      ∧ (bus.rxQueue = [] →
          pollResponses bus timeoutMs rx0 t
            = some ({ bus with rxLog := bus.rxLog ++ [timeoutMs] }, t)) := by
  obtain ⟨traces, hdec, hloop⟩ := loop_drains timeoutMs bus.rxQueue bus rx0 t rfl hq hrx0
  have hlen : traces.length = bus.rxQueue.length := by
    have := congrArg List.length hdec
    simpa [deliveries_length] using this.symm
  refine ⟨traces, hdec, hlen, hloop, fun hnil => ?_⟩
  have ht : traces = [] := List.eq_nil_of_length_eq_zero (by rw [hlen, hnil]; rfl)
  unfold pollResponses
  rw [hloop, ht, hnil]
  simp

/-- Witness for C15: two pending frames, a speed response and an unknown code. -/
theorem pollResponses_drains_queue_witness :
    ∃ traces : List Trace,
      (deliveries { id := 0, dlc := 0, data := [0, 0, 0, 0, 0, 0, 0, 0] }
          [{ id := 1, dlc := 4, data := [0x32, 0xFF, 0xFF, 0x31, 0, 0, 0, 0] },
           { id := 1, dlc := 2, data := [0x50, 0x51, 0, 0, 0, 0, 0, 0] }]).map decode
        = traces.map some
      ∧ traces.length = 2
      ∧ pollResponses
          { idleBus with rxQueue :=
              [{ id := 1, dlc := 4, data := [0x32, 0xFF, 0xFF, 0x31, 0, 0, 0, 0] },
               { id := 1, dlc := 2, data := [0x50, 0x51, 0, 0, 0, 0, 0, 0] }] }
          20 { id := 0, dlc := 0, data := [0, 0, 0, 0, 0, 0, 0, 0] }
          { serial := [], reads := [] }
        = some
          ({ idleBus with rxQueue := [], rxLog := [20, 20, 20] },
           { serial := (traces.map (·.serial)).flatten,
             reads := (traces.map (·.reads)).flatten }) := by
  obtain ⟨traces, h1, h2, h3, -⟩ := pollResponses_drains_queue
    { idleBus with rxQueue :=
        [{ id := 1, dlc := 4, data := [0x32, 0xFF, 0xFF, 0x31, 0, 0, 0, 0] },
         { id := 1, dlc := 2, data := [0x50, 0x51, 0, 0, 0, 0, 0, 0] }] }
    20 { id := 0, dlc := 0, data := [0, 0, 0, 0, 0, 0, 0, 0] } { serial := [], reads := [] }
    (by simp [CanFrame.WellTyped, idleBus]) (by simp [CanFrame.WellTyped])
  exact ⟨traces, h1, h2, by simpa [idleBus] using h3⟩

end MKSServoCAN

namespace MKSServoCAN

/-! ## Frames of length one to eight -/

theorem decode_congr (id dlc c a1 a2 a3 a4 a5 a6 a7 b1 b2 b3 b4 b5 b6 b7 : Nat)
    (hcode : c ∈ caseLabels) (h0 : c ≠ 0x00) (e1 : a1 = b1)
    (e2 : 2 ≤ maxRead c → a2 = b2)
    (e4 : 4 ≤ maxRead c → a3 = b3 ∧ a4 = b4)
    (e6 : 6 ≤ maxRead c → a5 = b5 ∧ a6 = b6) :
    decode { id := id, dlc := dlc, data := [c, a1, a2, a3, a4, a5, a6, a7] }
      = decode { id := id, dlc := dlc, data := [c, b1, b2, b3, b4, b5, b6, b7] } := by
  subst e1
  by_cases hd : minLength c ≤ dlc
  · simp only [caseLabels, List.mem_cons, List.mem_singleton, List.not_mem_nil, or_false]
      at hcode
    rcases hcode with rfl | rfl | rfl | rfl | rfl | rfl | rfl | rfl | rfl | rfl | rfl | rfl | rfl | rfl | rfl | rfl | rfl | rfl | rfl | rfl | rfl | rfl | rfl | rfl | rfl | rfl | rfl | rfl | rfl | rfl | rfl | rfl | rfl | rfl | rfl | rfl | rfl | rfl | rfl | rfl | rfl | rfl | rfl | rfl <;>
      simp [minLength] at hd <;>
      simp [maxRead] at e2 e4 e6 <;>
      first
        | exact absurd rfl h0
        | simp [decode, pollResponses.body, header, bind, pure, Serial.printf,
            CanFrame.read, hd, status_run, flag, readU32, readI48, readI48.step, List.foldlM,
            List.range', e2, e4, e6]
  · have hd' : dlc < minLength c := Nat.not_le.mp hd
    rw [decode_short id dlc c a1 a2 a3 a4 a5 a6 a7 hcode hd',
      decode_short id dlc c a1 b2 b3 b4 b5 b6 b7 hcode hd']
    rfl

theorem maxRead_lt_minLength (c : Nat) : maxRead c + 1 ≤ minLength c := by
  unfold maxRead minLength
  split_ifs <;> omega

/-- For frames of length 1 to 8 the decoder's outcome depends only on the meaningful part:
two such frames with the same identifier, the same length `L` and the same first `L` data
bytes are decoded to the same output, with the same reads. -/
theorem decode_depends_on_meaningful_part (rx rx' : CanFrame) (hrx : rx.WellTyped)
    (hrx' : rx'.WellTyped) (hid : rx'.id = rx.id) (hdlc : rx'.dlc = rx.dlc)
    (h1 : 1 ≤ rx.dlc) (h8 : rx.dlc ≤ 8)
    (htake : rx'.data.take rx.dlc = rx.data.take rx.dlc) :
    decode rx' = decode rx := by
  obtain ⟨a0, a1, a2, a3, a4, a5, a6, a7, hshape, -⟩ := hrx.shape
  obtain ⟨b0, b1, b2, b3, b4, b5, b6, b7, hshape', -⟩ := hrx'.shape
  have hidx : ∀ i, i < rx.dlc → rx'.data[i]? = rx.data[i]? := by
    intro i hi
    have := congrArg (fun l => l[i]?) htake
    simpa [List.getElem?_take, hi] using this
  by_cases hcode : rx.data.getD 0 0 ∈ caseLabels
  · obtain ⟨id, dlc, data⟩ := rx
    obtain ⟨id', dlc', data'⟩ := rx'
    simp only [CanFrame.mk.injEq, true_and] at hshape hshape'
    simp only at hid hdlc h1 h8 htake hidx
    subst hshape hshape' hid hdlc
    simp only [List.getD_eq_getElem?_getD, List.getElem?_cons_zero, Option.getD_some]
      at hcode
    have hc : b0 = a0 := by simpa using hidx 0 (by omega)
    subst hc
    by_cases h0 : b0 = 0x00
    · subst h0
      by_cases hd : dlc' < 2
      · rw [decode_short id' dlc' 0 a1 a2 a3 a4 a5 a6 a7 hcode (by simpa [minLength] using hd),
          decode_short id' dlc' 0 b1 b2 b3 b4 b5 b6 b7 hcode (by simpa [minLength] using hd)]
        rfl
      · obtain ⟨n, rfl⟩ : ∃ n, dlc' = 2 + n := ⟨dlc' - 2, by omega⟩
        have e1 : b1 = a1 := by simpa using hidx 1 (by omega)
        have hrest : ([0, b1, b2, b3, b4, b5, b6, b7].drop 2).take n
            = ([0, a1, a2, a3, a4, a5, a6, a7].drop 2).take n := by
          have := congrArg (List.drop 2) htake
          simpa [List.drop_take] using this
        rw [decode_sysParam id' n a1 a2 a3 a4 a5 a6 a7 h8,
          decode_sysParam id' n b1 b2 b3 b4 b5 b6 b7 h8, hrest, e1]
        rfl
    · by_cases hd : dlc' < minLength b0
      · rw [decode_short id' dlc' b0 a1 a2 a3 a4 a5 a6 a7 hcode hd,
          decode_short id' dlc' b0 b1 b2 b3 b4 b5 b6 b7 hcode hd]
        rfl
      · have hm := maxRead_lt_minLength b0
        have hm1 : 1 ≤ maxRead b0 := by
          unfold maxRead
          split_ifs <;> norm_num
        have hd' : minLength b0 ≤ dlc' := Nat.not_lt.mp hd
        have g : ∀ i, i ≤ maxRead b0 →
            [b0, b1, b2, b3, b4, b5, b6, b7][i]? = [b0, a1, a2, a3, a4, a5, a6, a7][i]? :=
          fun i hi => hidx i (by omega)
        exact decode_congr id' dlc' b0 b1 b2 b3 b4 b5 b6 b7 a1 a2 a3 a4 a5 a6 a7 hcode h0
          (by simpa using g 1 hm1)
          (fun h => by simpa using g 2 h)
          (fun h => ⟨by simpa using g 3 (by omega), by simpa using g 4 h⟩)
          (fun h => ⟨by simpa using g 5 (by omega), by simpa using g 6 h⟩)
  · have hcode' : rx'.data.getD 0 0 ∉ caseLabels := by
      have h0 := hidx 0 (by omega)
      have : rx'.data.getD 0 0 = rx.data.getD 0 0 := by
        simp [List.getD_eq_getElem?_getD, h0]
      rwa [this]
    have hhead : header rx' = header rx := by
      have h0 := hidx 0 (by omega)
      simp [header, hid, List.getD_eq_getElem?_getD, h0]
    rw [decode_default rx hrx h8 hcode, decode_default rx' hrx' (hdlc ▸ h8) hcode', hdlc,
      htake, hhead]

end MKSServoCAN

namespace MKSServoCAN

/-! ## Catalog: every 16-bit and 32-bit parameter -/

theorem be24 (x : Nat) : bigEndian [u8 (x >>> 16), u8 (x >>> 8), u8 x] = x % 2 ^ 24 := by
  have h1 : x / 65536 = x / 256 / 256 := by omega
  have h2 : x / 16777216 = x / 256 / 256 / 256 := by omega
  simp only [bigEndian, List.foldl_cons, List.foldl_nil, u8, Nat.shiftRight_eq_div_pow]
  omega

theorem speed12 (s : Nat) (ccw : Bool) :
    u8 ((if ccw then 0x80 else 0) ||| ((s >>> 8) &&& 0x0F)) % 16 * 256 + u8 (s &&& 0xFF)
      = s % 4096 :=
  (dirSpeed_layout s ccw).2.2.2.2.2.1

/-- C11 as stated fails: not every 16-bit and 32-bit parameter of the catalog is emitted
without loss.  `posRelative` sends the same frame for the pulse counts `0x01000000` and `0`,
`speedMode` the same frame for the speeds 4096 and 0, and `posAbsolute` the same frame for
the positions `0x01000000` and `0`, all of them values of the parameter's type. -/
theorem wide_parameters_truncated :
    (Command.posRelative 0x01000000 0 0 false).WellTyped
    ∧ sentFrame idleBus 1 (.posRelative 0x01000000 0 0 false)
        = sentFrame idleBus 1 (.posRelative 0 0 0 false)
    ∧ sentFrame idleBus 1 (.posRelative 0 0 0 false)
        = some { id := 1, dlc := 8, data := [0xFD, 0, 0, 0, 0, 0, 0, 0xFE] }
    ∧ (Command.speedMode 4096 0 false).WellTyped
    ∧ sentFrame idleBus 1 (.speedMode 4096 0 false)
        = sentFrame idleBus 1 (.speedMode 0 0 false)
    ∧ sentFrame idleBus 1 (.speedMode 0 0 false)
        = some { id := 1, dlc := 5, data := [0xF6, 0, 0, 0, 0xF7, 0, 0, 0] }
    ∧ (Command.posAbsolute 0x01000000 0 0).WellTyped
    ∧ sentFrame idleBus 1 (.posAbsolute 0x01000000 0 0)
        = sentFrame idleBus 1 (.posAbsolute 0 0 0) := by
  refine ⟨by norm_num [Command.WellTyped], rfl, ?_, by norm_num [Command.WellTyped], rfl, ?_,
    by norm_num [Command.WellTyped], rfl⟩
  · rw [sentFrame_eq idleBus 1 (.posRelative 0 0 0 false) [0xFD, 0, 0, 0, 0, 0, 0] (by simp) rfl]
    rfl
  · rw [sentFrame_eq idleBus 1 (.speedMode 0 0 false) [0xF6, 0, 0, 0] (by simp) rfl]
    rfl

/-- C11, amended: every 16-bit and 32-bit parameter of the catalog is emitted most
significant byte first.  It is emitted without loss for the 16-bit fields of `setCurrent`,
`setCanId`, `setGroupId`, `setHomeParams` (speed), `setEnTrigger` (time and error),
`posAbsolute` and `posAxis` (speed) and `setNoLimitReturn` (current), and for the 32-bit
return distance of `setNoLimitReturn` (data bytes 1..4): reassembling the emitted bytes
big-endian gives back the parameter.  The speed of `speedMode` and `posRelative` is emitted
as its low 12 bits (low nibble of byte 1, then byte 2), and the pulse count of `posRelative`
and the positions of `posAbsolute` and `posAxis` as their low 24 bits (data bytes 4..6). -/
theorem catalog_fields_bigEndian (bus : ICanBus) (id : Nat) (c : Command)
    (hc : c.WellTyped) :
    ∃ frame, sentFrame bus id c = some frame ∧
      match c with
      | .setCurrent ma => bigEndian (frame.bytes 1 2) = ma
      | .setCanId nid => bigEndian (frame.bytes 1 2) = nid
      | .setGroupId gid => bigEndian (frame.bytes 1 2) = gid
      | .setHomeParams _ _ s _ _ => bigEndian (frame.bytes 3 4) = s
      | .setEnTrigger _ _ tim err =>
          bigEndian (frame.bytes 2 3) = tim ∧ bigEndian (frame.bytes 4 5) = err
      | .setNoLimitReturn r ma =>
          bigEndian (frame.bytes 1 4) = r ∧ bigEndian (frame.bytes 5 6) = ma
      | .speedMode s _ _ =>
          frame.data.getD 1 0 % 16 * 256 + frame.data.getD 2 0 = s % 4096
      | .posRelative p s _ _ =>
          frame.data.getD 1 0 % 16 * 256 + frame.data.getD 2 0 = s % 4096
          ∧ bigEndian (frame.bytes 4 6) = p % 2 ^ 24
      | .posAbsolute ax s _ =>
          bigEndian (frame.bytes 1 2) = s
          ∧ ((bigEndian (frame.bytes 4 6) : Nat) : Int) = ax % 2 ^ 24
      | .posAxis r s _ =>
          bigEndian (frame.bytes 1 2) = s
          ∧ ((bigEndian (frame.bytes 4 6) : Nat) : Int) = r % 2 ^ 24
      | _ => True := by
  have other : ∀ c : Command, ∃ frame, sentFrame bus id c = some frame := by
    intro c
    obtain ⟨payload, -, h7, hrun⟩ := c.run_eq_sendFrame bus id
    exact ⟨_, sentFrame_eq bus id c payload h7 hrun⟩
  cases c
  case setCurrent ma =>
    exact ⟨_, sentFrame_eq bus id _ [0x83, u8 (ma >>> 8), u8 ma] (by simp) rfl, be16 ma hc⟩
  case setCanId nid =>
    exact ⟨_, sentFrame_eq bus id _ [0x8B, u8 (nid >>> 8), u8 nid] (by simp) rfl, be16 nid hc⟩
  case setGroupId gid =>
    exact ⟨_, sentFrame_eq bus id _ [0x8D, u8 (gid >>> 8), u8 gid] (by simp) rfl, be16 gid hc⟩
  case setHomeParams t d s el m =>
    exact ⟨_, sentFrame_eq bus id _ [0x90, t, d, u8 (s >>> 8), u8 s, boolByte el, m] (by simp)
      rfl, be16 s hc.2.2.1⟩
  case setEnTrigger et pp tim err =>
    exact ⟨_, sentFrame_eq bus id _
      [0x9D, u8 ((if pp then 0x02 else 0) ||| (if et then 0x01 else 0)),
        u8 (tim >>> 8), u8 tim, u8 (err >>> 8), u8 err] (by simp) rfl,
      be16 tim hc.1, be16 err hc.2⟩
  case setNoLimitReturn r ma =>
    exact ⟨_, sentFrame_eq bus id _
      [0x94, u8 (r >>> 24), u8 (r >>> 16), u8 (r >>> 8), u8 r, u8 (ma >>> 8), u8 ma]
      (by simp) rfl, be32 r hc.1, be16 ma hc.2⟩
  case speedMode s a ccw =>
    exact ⟨_, sentFrame_eq bus id _
      [0xF6, u8 ((if ccw then 0x80 else 0) ||| ((s >>> 8) &&& 0x0F)), u8 (s &&& 0xFF), a]
      (by simp) rfl, speed12 s ccw⟩
  case posRelative p s a ccw =>
    exact ⟨_, sentFrame_eq bus id _
      [0xFD, u8 ((if ccw then 0x80 else 0) ||| ((s >>> 8) &&& 0x0F)), u8 (s &&& 0xFF), a,
        u8 (p >>> 16), u8 (p >>> 8), u8 p]
      (by simp) rfl, speed12 s ccw, be24 p⟩
  case posAbsolute ax s a =>
    exact ⟨_, sentFrame_eq bus id _
      [0xFE, u8 (s >>> 8), u8 s, a, u8s (ax >>> 16), u8s (ax >>> 8), u8s ax] (by simp) rfl,
      be16 s hc.2.2.1, be24s ax⟩
  case posAxis r s a =>
    exact ⟨_, sentFrame_eq bus id _
      [0xF4, u8 (s >>> 8), u8 s, a, u8s (r >>> 16), u8s (r >>> 8), u8s r] (by simp) rfl,
      be16 s hc.2.2.1, be24s r⟩
  all_goals exact (other _).imp fun _ h => ⟨h, trivial⟩

/-- Witness for C11: `posRelative` with pulse count `0x01000001`, speed `0x1234`,
counter-clockwise. -/
theorem catalog_fields_bigEndian_witness :
    ∃ frame, sentFrame idleBus 1 (.posRelative 0x01000001 0x1234 2 true) = some frame ∧
      frame.data.getD 1 0 % 16 * 256 + frame.data.getD 2 0 = 0x1234 % 4096
      ∧ bigEndian (frame.bytes 4 6) = 0x01000001 % 2 ^ 24 :=
  catalog_fields_bigEndian idleBus 1 (.posRelative 0x01000001 0x1234 2 true)
    ⟨by norm_num, by norm_num, by norm_num⟩

/-! ## Catalog: one send, answer dropped -/

/-- C13, amended: every encode-and-send operation of the catalog returns nothing: it makes
exactly one call of the transport's `send`, with a frame that depends only on the command and
the identifier and with timeout 100, and discards the boolean that call answers: whatever
the transport answers, the call leaves the transport with that one `send` recorded and
nothing else changed, and gives its caller the same empty result. -/
theorem catalog_returns_nothing (c : Command) (id : Nat) :
    ∃ frame : CanFrame, ∀ bus : ICanBus,
      c.run bus id = some { bus with txLog := bus.txLog ++ [(frame, 100)] }
      ∧ c.returned bus id = some ()
      ∧ ∀ acc : CanFrame → Nat → Bool,
          c.run { bus with accept := acc } id
            = some { bus with accept := acc, txLog := bus.txLog ++ [(frame, 100)] }
          ∧ c.returned { bus with accept := acc } id = c.returned bus id := by
  obtain ⟨frame, h⟩ := Command.run_sent c id
  refine ⟨frame, fun bus => ⟨(h bus).1, (h bus).2.2, fun acc => ?_⟩⟩
  have h2 := h { bus with accept := acc }
  exact ⟨h2.1, h2.2.2.trans (h bus).2.2.symm⟩

end MKSServoCAN
